import Mathlib

/-!
Verification development for the ODI match report generator
(`streamlit_odi_report.py`).  The script's original logic is shallowly
embedded here: strings are modelled as lists of Unicode codepoints
(`List Nat`), Python's `json` module is modelled by an executable JSON
value type with a serializer (`json.dumps(·, indent=2)` with its default
`ensure_ascii=True`) and a recursive-descent parser (`json.loads`,
restricted to integer numerals), and the pandas aggregation steps are
modelled over a column-oriented data-frame of cells.
-/

namespace ODI

/-- Codepoints of a Lean string literal, used to write embedded Python
string constants. -/
def strCodes (s : String) : List Nat := s.data.map Char.toNat

/-- ASCII lowercasing of one codepoint, modelling `str.lower` on the
ASCII letters that the keyword heuristics use. -/
def lowerChar (c : Nat) : Nat := if 65 ≤ c ∧ c ≤ 90 then c + 32 else c

/-- Models `x.lower()` (restricted to ASCII case folding). -/
def lowerStr (s : List Nat) : List Nat := s.map lowerChar

/-- Boolean prefix test on codepoint lists. -/
def startsWithL : List Nat → List Nat → Bool
  | [], _ => true
  | _ :: _, [] => false
  | p :: ps, c :: cs => p = c && startsWithL ps cs

/-- Models Python's substring containment `pat in s`. -/
def containsSub (s pat : List Nat) : Bool :=
  if startsWithL pat s then true
  else
    match s with
    | [] => false
    | _ :: t => containsSub t pat

/-- Index of the first occurrence of `pat` in `s` (Python `str.find` for
substrings), `none` when absent. -/
def findSubIdx (pat s : List Nat) : Option Nat :=
  if startsWithL pat s then some 0
  else
    match s with
    | [] => none
    | _ :: t => (findSubIdx pat t).map (· + 1)

/-- Index of the first occurrence of codepoint `c` (Python `str.find`),
as an option instead of `-1`. -/
def findCharIdx (c : Nat) (s : List Nat) : Option Nat :=
  s.findIdx? (· = c)

/-- Index of the last occurrence of codepoint `c` (Python `str.rfind`),
as an option instead of `-1`. -/
def rfindCharIdx (c : Nat) (s : List Nat) : Option Nat :=
  (s.reverse.findIdx? (· = c)).map (fun i => s.length - 1 - i)

/-- Whitespace stripped by Python's `str.strip()` (ASCII part). -/
def isPyWs (c : Nat) : Bool := c = 9 || c = 10 || c = 11 || c = 12 || c = 13 || c = 32

/-- Models `raw.strip()`. -/
def pyStrip (s : List Nat) : List Nat :=
  ((s.dropWhile isPyWs).reverse.dropWhile isPyWs).reverse

/-- JSON whitespace as accepted by `json.loads` between tokens. -/
def isJsonWs (c : Nat) : Bool := c = 9 || c = 10 || c = 13 || c = 32

/-- Skips JSON whitespace. -/
def skipWs (s : List Nat) : List Nat := s.dropWhile isJsonWs

/-- JSON values as produced by `json.loads`, with numerals restricted to
integers (the chart specifications this program handles carry only
strings and integer limits; floats are out of the model). Object members
are kept in insertion order, as Python dicts do. -/
inductive Json where
  | jnull : Json
  | jbool (b : Bool) : Json
  | jnum (n : Int) : Json
  | jstr (s : List Nat) : Json
  | jarr (elems : List Json) : Json
  | jobj (mems : List (List Nat × Json)) : Json

/-- Lower-case hex digit for a value below 16 (`json.dumps` emits
lower-case `\uNNNN` escapes). -/
def hexDig (d : Nat) : Nat := if d < 10 then 48 + d else 87 + d

/-- Four lower-case hex digits of a value below 65536. -/
def toHex4 (n : Nat) : List Nat :=
  [hexDig (n / 4096 % 16), hexDig (n / 256 % 16), hexDig (n / 16 % 16), hexDig (n % 16)]

/-- Escaping of one codepoint by `json.dumps` with its default
`ensure_ascii=True`: quote, backslash and the short control escapes go to
two-character escapes, printable ASCII is emitted literally, and
everything else becomes `\uNNNN` (a surrogate pair beyond U+FFFF). -/
def escChar (c : Nat) : List Nat :=
  if c = 34 then [92, 34]
  else if c = 92 then [92, 92]
  else if c = 8 then [92, 98]
  else if c = 9 then [92, 116]
  else if c = 10 then [92, 110]
  else if c = 12 then [92, 102]
  else if c = 13 then [92, 114]
  else if 32 ≤ c ∧ c ≤ 126 then [c]
  else if c < 65536 then 92 :: 117 :: toHex4 c
  else 92 :: 117 :: toHex4 (55296 + (c - 65536) / 1024) ++ 92 :: 117 :: toHex4 (56320 + (c - 65536) % 1024)

/-- Escaped body of a JSON string literal. -/
def escStr (s : List Nat) : List Nat := (s.map escChar).flatten

/-- Decimal digits of a natural number, with a fuel argument that keeps
the recursion structural (any fuel above the number works, see
`natDecAux_fuel`). -/
def natDecAux : Nat → Nat → List Nat
  | 0, _ => []
  | fuel + 1, n => if n < 10 then [48 + n] else natDecAux fuel (n / 10) ++ [48 + n % 10]

/-- Decimal digits of a natural number. -/
def natDec (n : Nat) : List Nat := natDecAux (n + 1) n

/-- Decimal rendering of an integer as `json.dumps` prints it. -/
def intDec (n : Int) : List Nat :=
  if n < 0 then 45 :: natDec (-n).toNat else natDec n.toNat

/-- Indentation emitted by `json.dumps(·, indent=2)` at nesting level
`lvl`. -/
def padSp (lvl : Nat) : List Nat := List.replicate (2 * lvl) 32

mutual

/-- Models `json.dumps(v, indent=2)` at nesting level `lvl`. -/
def dumpVal (lvl : Nat) : Json → List Nat
  | .jnull => strCodes "null"
  | .jbool b => if b then strCodes "true" else strCodes "false"
  | .jnum n => intDec n
  | .jstr s => 34 :: (escStr s ++ [34])
  | .jarr [] => [91, 93]
  | .jarr (v :: vs) => 91 :: 10 :: dumpElems lvl (v :: vs)
  | .jobj [] => [123, 125]
  | .jobj (m :: ms) => 123 :: 10 :: dumpMems lvl (m :: ms)

/-- Array items of `json.dumps(·, indent=2)`, each on its own indented
line, including the closing bracket line. -/
def dumpElems (lvl : Nat) : List Json → List Nat
  | [] => [93]
  | v :: vs =>
    padSp (lvl + 1) ++ dumpVal (lvl + 1) v ++
      (match vs with
       | [] => 10 :: (padSp lvl ++ [93])
       | _ :: _ => 44 :: 10 :: dumpElems lvl vs)

/-- Object members of `json.dumps(·, indent=2)`, each `"key": value` on
its own indented line, including the closing brace line. -/
def dumpMems (lvl : Nat) : List (List Nat × Json) → List Nat
  | [] => [125]
  | (k, v) :: ms =>
    padSp (lvl + 1) ++ (34 :: (escStr k ++ [34])) ++ (58 :: 32 :: dumpVal (lvl + 1) v) ++
      (match ms with
       | [] => 10 :: (padSp lvl ++ [125])
       | _ :: _ => 44 :: 10 :: dumpMems lvl ms)

end

/-- Models `json.dumps(v, indent=2)` as used on the parsed chart
specification when the PDF is assembled. -/
def jsonDumps (v : Json) : List Nat := dumpVal 0 v

/-- Value of one hex digit, as accepted in a `\uNNNN` escape. -/
def hexVal (c : Nat) : Option Nat :=
  if 48 ≤ c ∧ c ≤ 57 then some (c - 48)
  else if 97 ≤ c ∧ c ≤ 102 then some (c - 87)
  else if 65 ≤ c ∧ c ≤ 70 then some (c - 55)
  else none

/-- Value of four hex digits. -/
def hex4Val (a b c d : Nat) : Option Nat := do
  let x ← hexVal a
  let y ← hexVal b
  let z ← hexVal c
  let w ← hexVal d
  pure (4096 * x + 256 * y + 16 * z + w)

/-- Surrogate-pair lookahead of the `json.loads` string scanner: after a
high-surrogate `\uNNNN` escape with value `n`, a following low-surrogate
escape combines into one astral codepoint; otherwise the lone value `n`
is kept. Returns the decoded codepoint and the remaining input. -/
def surrPair (n : Nat) (rest : List Nat) : Nat × List Nat :=
  match rest with
  | 92 :: 117 :: a2 :: b2 :: c3 :: d2 :: rest4 =>
    match hex4Val a2 b2 c3 d2 with
    | some m =>
      if 56320 ≤ m ∧ m < 57344 then (65536 + 1024 * (n - 55296) + (m - 56320), rest4)
      else (n, rest)
    | none => (n, rest)
  | _ => (n, rest)

/-- Body of a JSON string literal after the opening quote, as `json.loads`
scans it in its default strict mode: literal characters from U+0020 up,
the short backslash escapes, and `\uNNNN` with surrogate-pair combining.
Returns the decoded codepoints and the input after the closing quote.
The fuel argument keeps the recursion structural; every call consumes at
least one input character, so callers pass the input length plus one. -/
def parseStrAux : Nat → List Nat → Option (List Nat × List Nat)
  | 0, _ => none
  | _ + 1, [] => none
  | fuel + 1, c :: rest =>
    if c = 34 then some ([], rest)
    else if c = 92 then
      match rest with
      | [] => none
      | e :: rest2 =>
        if e = 34 then (parseStrAux fuel rest2).map (fun p => (34 :: p.1, p.2))
        else if e = 92 then (parseStrAux fuel rest2).map (fun p => (92 :: p.1, p.2))
        else if e = 47 then (parseStrAux fuel rest2).map (fun p => (47 :: p.1, p.2))
        else if e = 98 then (parseStrAux fuel rest2).map (fun p => (8 :: p.1, p.2))
        else if e = 102 then (parseStrAux fuel rest2).map (fun p => (12 :: p.1, p.2))
        else if e = 110 then (parseStrAux fuel rest2).map (fun p => (10 :: p.1, p.2))
        else if e = 114 then (parseStrAux fuel rest2).map (fun p => (13 :: p.1, p.2))
        else if e = 116 then (parseStrAux fuel rest2).map (fun p => (9 :: p.1, p.2))
        else if e = 117 then
          match rest2 with
          | a :: b :: c2 :: d :: rest3 =>
            match hex4Val a b c2 d with
            | none => none
            | some n =>
              if 55296 ≤ n ∧ n < 56320 then
                (parseStrAux fuel (surrPair n rest3).2).map
                  (fun p => ((surrPair n rest3).1 :: p.1, p.2))
              else (parseStrAux fuel rest3).map (fun p => (n :: p.1, p.2))
          | _ => none
        else none
    else if 32 ≤ c then (parseStrAux fuel rest).map (fun p => (c :: p.1, p.2))
    else none

/-- Decimal digit test. -/
def isDigit (c : Nat) : Bool := decide (48 ≤ c) && decide (c ≤ 57)

/-- Consumes a run of decimal digits, accumulating their value. -/
def digitsAux (acc : Nat) : List Nat → Nat × List Nat
  | [] => (acc, [])
  | c :: rest => if isDigit c then digitsAux (acc * 10 + (c - 48)) rest else (acc, c :: rest)

/-- Unsigned integer part of a JSON numeral: a single `0` or a nonzero
digit followed by digits (JSON forbids leading zeros). -/
def parseNat0 : List Nat → Option (Nat × List Nat)
  | [] => none
  | c :: rest =>
    if c = 48 then
      if (match rest with | d :: _ => isDigit d | [] => false) then none else some (0, rest)
    else if isDigit c then some (digitsAux (c - 48) rest)
    else none

/-- Signed integer part of a JSON numeral. -/
def parseNum : List Nat → Option (Int × List Nat)
  | 45 :: rest => (parseNat0 rest).map (fun p => (-(p.1 : Int), p.2))
  | s => (parseNat0 s).map (fun p => ((p.1 : Int), p.2))

/-- Rejects a fraction or exponent continuation after an integer part:
the model restricts JSON numerals to integers and refuses floats rather
than misreading them. -/
def noFloatTail : List Nat → Bool
  | c :: _ => !(c = 46 || c = 101 || c = 69)
  | [] => true

/-- Dict-insertion semantics of repeated object keys in `json.loads`: a
member list is built left to right as a Python dict, so a key keeps the
position of its first occurrence and the value of its last. `insertMem`
adds the earliest member `(k, v)` in front of the already-collapsed later
members: if `k` reappears there, its later value wins and the later entry
is dropped. -/
def insertMem (k : List Nat) (v : Json) (ms : List (List Nat × Json)) :
    List (List Nat × Json) :=
  match (ms.find? (fun m => m.1 = k)).map Prod.snd with
  | none => (k, v) :: ms
  | some w => (k, w) :: ms.filter (fun m => m.1 ≠ k)

mutual

/-- Recursive-descent JSON value parser modelling `json.loads`
(restricted to integer numerals), with a fuel argument for termination.
Returns the value and the unconsumed input. -/
def parseVal : Nat → List Nat → Option (Json × List Nat)
  | 0, _ => none
  | fuel + 1, s =>
    match skipWs s with
    | [] => none
    | c :: rest =>
      if c = 110 then
        match rest with
        | 117 :: 108 :: 108 :: r => some (.jnull, r)
        | _ => none
      else if c = 116 then
        match rest with
        | 114 :: 117 :: 101 :: r => some (.jbool true, r)
        | _ => none
      else if c = 102 then
        match rest with
        | 97 :: 108 :: 115 :: 101 :: r => some (.jbool false, r)
        | _ => none
      else if c = 34 then (parseStrAux (rest.length + 1) rest).map (fun p => (.jstr p.1, p.2))
      else if c = 123 then
        match skipWs rest with
        | 125 :: r => some (.jobj [], r)
        | r => (parseMems fuel r).map (fun p => (.jobj p.1, p.2))
      else if c = 91 then
        match skipWs rest with
        | 93 :: r => some (.jarr [], r)
        | r => (parseElems fuel r).map (fun p => (.jarr p.1, p.2))
      else
        match parseNum (c :: rest) with
        | some (n, r) => if noFloatTail r then some (.jnum n, r) else none
        | none => none

/-- Comma-separated array items up to and including the closing bracket. -/
def parseElems : Nat → List Nat → Option (List Json × List Nat)
  | 0, _ => none
  | fuel + 1, s =>
    match parseVal fuel s with
    | none => none
    | some (v, r) =>
      match skipWs r with
      | 44 :: r2 => (parseElems fuel r2).map (fun p => (v :: p.1, p.2))
      | 93 :: r2 => some ([v], r2)
      | _ => none

/-- Comma-separated object members up to and including the closing brace;
the input starts at the opening quote of the first key. -/
def parseMems : Nat → List Nat → Option (List (List Nat × Json) × List Nat)
  | 0, _ => none
  | fuel + 1, s =>
    match s with
    | 34 :: r =>
      match parseStrAux (r.length + 1) r with
      | none => none
      | some (k, r1) =>
        match skipWs r1 with
        | 58 :: r2 =>
          match parseVal fuel r2 with
          | none => none
          | some (v, r3) =>
            match skipWs r3 with
            | 44 :: r4 => (parseMems fuel (skipWs r4)).map (fun p => (insertMem k v p.1, p.2))
            | 125 :: r4 => some ([(k, v)], r4)
            | _ => none
        | _ => none
    | _ => none

end

/-- Models `json.loads`: parse one value and require only whitespace
after it. -/
def jsonParse (s : List Nat) : Option Json :=
  match parseVal (s.length + 1) s with
  | some (v, rest) => if skipWs rest = [] then some v else none
  | none => none

/-- Models the second fallback of `parse_model_json`:
`raw.split("```json")[1].split("```")[0]`, i.e. the text between the
first json code-fence marker and the next fence, `none` when the marker
is absent (Python raises `IndexError` there, caught by the `except`). -/
def fencedExtract (raw : List Nat) : Option (List Nat) :=
  match findSubIdx (strCodes "```json") raw with
  | none => none
  | some i =>
    let «after» := raw.drop (i + 7)
    some (match findSubIdx (strCodes "```") «after» with
          | none => «after»
          | some j => «after».take j)

/-- Models the third fallback: the substring of `raw` from its first
`\x7b` to its last `\x7d`, provided both exist in that order. -/
def braceSlice (raw : List Nat) : Option (List Nat) :=
  match findCharIdx 123 raw, rfindCharIdx 125 raw with
  | some s, some e => if s < e then some ((raw.drop s).take (e + 1 - s)) else none
  | _, _ => none

/-- Models `parse_model_json`: direct parse of the stripped text, then
the fenced-block interior, then the first-brace-to-last-brace substring;
first success wins, `none` when all three fail. -/
def parse_model_json (raw : List Nat) : Option Json :=
  match jsonParse (pyStrip raw) with
  | some v => some v
  | none =>
    match (fencedExtract raw).bind jsonParse with
    | some v => some v
    | none =>
      match braceSlice raw with
      | some sub => jsonParse sub
      | none => none

/-- Models `text.encode("ascii", "ignore").decode("ascii")`: keep the
ASCII codepoints, drop the rest. -/
def asciiIgnore (s : List Nat) : List Nat := s.filter (fun c => decide (c < 128))

/-- Models `clean_text` on strings:
`unicodedata.normalize("NFKD", text).encode("ascii", "ignore").decode("ascii")`.
The NFKD normalization is an external library function, taken here as a
parameter; the theorems assume of it only what the Unicode standard
guarantees (it is the identity on pure-ASCII text). -/
def clean_text (normNFKD : List Nat → List Nat) (s : List Nat) : List Nat :=
  asciiIgnore (normNFKD s)

/-- A cell of the match-data table: a numeric or string value (the model
carries no missing values and no floats). -/
inductive Cell where
  | num (n : Int) : Cell
  | str (s : List Nat) : Cell
deriving DecidableEq

/-- Column-oriented data frame: column names with their cell columns,
modelling the pandas `DataFrame` loaded from the CSV. -/
abbrev DFrame := List (List Nat × List Cell)

/-- Models `list(df.columns)`. -/
def colNames (df : DFrame) : List (List Nat) := df.map Prod.fst

/-- Models `df[name]`, `none` when the column is absent (pandas raises
`KeyError` there). -/
def getCol (df : DFrame) (name : List Nat) : Option (List Cell) :=
  (df.find? (fun col => col.1 = name)).map Prod.snd

/-- Models `pd.api.types.is_numeric_dtype(df[y])`: every cell of the
column is numeric. -/
def isNumericCol (cs : List Cell) : Bool :=
  cs.all (fun c => match c with | .num _ => true | .str _ => false)

/-- Distinct values of a list in order of first appearance: structural
worker (the fuel argument never runs out when it starts at the list
length, since filtering never lengthens the tail). -/
def firstDedupAux : Nat → List Cell → List Cell
  | 0, _ => []
  | _ + 1, [] => []
  | fuel + 1, a :: l => a :: firstDedupAux fuel (l.filter (· ≠ a))

/-- Distinct values of a list in order of first appearance. -/
def firstDedup (l : List Cell) : List Cell := firstDedupAux l.length l

/-- Occurrence counts of the distinct values, in order of first
appearance. -/
def tallyCounts (xs : List Cell) : List (Cell × Int) :=
  (firstDedup xs).map (fun c => (c, (xs.count c : Int)))

/-- Descending order on the value component of a `(category, value)`
row, the order of a pandas frequency tally and of
`sort_values(ascending=False)`. -/
def descVal (p q : Cell × Int) : Prop := q.2 ≤ p.2

instance : DecidableRel descVal := fun p q => inferInstanceAs (Decidable (q.2 ≤ p.2))

instance : IsTotal (Cell × Int) descVal := ⟨fun p q => le_total q.2 p.2⟩

instance : IsTrans (Cell × Int) descVal := ⟨fun _ _ _ h h' => le_trans h' h⟩

/-- Models `df[x].value_counts().reset_index()`: occurrence counts of the
distinct values, sorted by descending count. -/
def valueCounts (xs : List Cell) : List (Cell × Int) :=
  (tallyCounts xs).insertionSort descVal

/-- Total order used for the group keys of `groupby(x)` (pandas sorts
groups by key): numbers below strings, numbers by value, strings
lexicographically. -/
def cellLeB : Cell → Cell → Prop
  | .num m, .num n => m ≤ n
  | .num _, .str _ => True
  | .str _, .num _ => False
  | .str s, .str t => s ≤ t

instance : DecidableRel cellLeB := fun a b => by
  cases a <;> cases b <;> simp [cellLeB] <;> infer_instance

/-- Group-key order lifted to `(key, value)` rows. -/
def keyLe (p q : Cell × Int) : Prop := cellLeB p.1 q.1

instance : DecidableRel keyLe := fun p q => inferInstanceAs (Decidable (cellLeB p.1 q.1))

/-- Numeric value of a cell (`0` for a string cell; the sum aggregation
only reads it on numeric columns). -/
def cellInt : Cell → Int
  | .num n => n
  | .str _ => 0

/-- Sum of the `y` values over the rows whose `x` value is `k`. -/
def sumForKey (pairs : List (Cell × Cell)) (k : Cell) : Int :=
  ((pairs.filter (fun p => p.1 = k)).map (fun p => cellInt p.2)).sum

/-- Models `df.groupby(x)[y].sum().reset_index()`: one row per distinct
`x` value with the summed `y`, rows sorted by group key. -/
def groupSum (xcol ycol : List Cell) : List (Cell × Int) :=
  ((firstDedup xcol).map (fun k => (k, sumForKey (xcol.zip ycol) k))).insertionSort keyLe

/-- Models `data.head(n)` for an integer argument, including pandas'
negative-`n` behaviour (all rows but the last `|n|`). -/
def pyHead (n : Int) (l : List (Cell × Int)) : List (Cell × Int) :=
  if 0 ≤ n then l.take n.toNat else l.take (l.length - (-n).toNat)

/-- Python truthiness of a parsed JSON value (`if not chart_info`,
`if not x`, `if limit`). -/
def jsonTruthy : Json → Bool
  | .jnull => false
  | .jbool b => b
  | .jnum n => n != 0
  | .jstr s => !s.isEmpty
  | .jarr l => !l.isEmpty
  | .jobj m => !m.isEmpty

/-- Truthiness of `dict.get(key)`: an absent key gives `None`, which is
falsy. -/
def truthyOpt : Option Json → Bool
  | none => false
  | some j => jsonTruthy j

/-- Models `chart_info.get(key)` on a parsed object: first binding of the
key (the parser model keeps keys unique, matching Python dicts). -/
def objGet (ms : List (List Nat × Json)) (key : List Nat) : Option Json :=
  (ms.find? (fun m => m.1 = key)).map Prod.snd

/-- Terminal outcomes of the main processing other than a prepared
series: the user-visible `st.error` stops, and an uncaught Python
exception (`crash`) where the script would throw past its own handlers. -/
inductive AggErr where
  | modelOutputInvalid : AggErr
  | missingKeys : AggErr
  | columnNotFound (x : List Nat) (cols : List (List Nat)) : AggErr
  | crash : AggErr
deriving DecidableEq

/-- Prepared chart data: the `(category, value)` rows of `data` and the
name of its value column. -/
structure AggOut where
  series : List (Cell × Int)
  value_col : List Nat
deriving DecidableEq

/-- Models the column auto-correction (lines 156-165): an unknown `x` is
replaced through case-insensitive keyword search, in the order `team`,
`winner`, `toss`; with no keyword the script stops with the
column-not-found error listing the valid columns. -/
def autoCorrectX (cols : List (List Nat)) (x : List Nat) : Except AggErr (List Nat) :=
  if x ∈ cols then .ok x
  else if containsSub (lowerStr x) (strCodes "team") then .ok (strCodes "team1")
  else if containsSub (lowerStr x) (strCodes "winner") then .ok (strCodes "winner")
  else if containsSub (lowerStr x) (strCodes "toss") then .ok (strCodes "toss_winner")
  else .error (.columnNotFound x cols)

/-- Models the `y` fallback (lines 167-168): any `y` other than the
literal string `"count"` or the name of an existing column is replaced by
`"count"`; a truthy non-string `y` compares unequal to every column name
and is likewise replaced. -/
def resolveY (cols : List (List Nat)) (y : Json) : List Nat :=
  match y with
  | .jstr ys => if ys ≠ strCodes "count" ∧ ys ∉ cols then strCodes "count" else ys
  | _ => strCodes "count"

/-- Models `if limit: data = data.head(limit)`: a falsy or absent limit
leaves the data unchanged; a truthy integer is applied through `head`;
any other truthy value makes `head` raise a `TypeError`. -/
def applyLimit (limit : Option Json) (data : List (Cell × Int)) :
    Except AggErr (List (Cell × Int)) :=
  match limit with
  | none => .ok data
  | some lj =>
    if jsonTruthy lj then
      match lj with
      | .jnum n => .ok (pyHead n data)
      | _ => .error .crash
    else .ok data

/-- Models the data preparation (lines 171-186) once `x` has been
resolved to column `xcol` and `y` to `yname`: the count aggregation with
the limit applied, the numeric sum aggregation sorted and truncated when
a limit is set, or the silent fall back to the count aggregation - which
applies no limit - when `y` is an existing non-numeric column. -/
def prepareData (df : DFrame) (xname yname : List Nat) (limit : Option Json) :
    Except AggErr AggOut :=
  match getCol df xname with
  | none => .error .crash
  | some xcol =>
    if yname = strCodes "count" then
      match applyLimit limit (valueCounts xcol) with
      | .ok data => .ok ⟨data, strCodes "count"⟩
      | .error e => .error e
    else
      match getCol df yname with
      | none => .error .crash
      | some ycol =>
        if isNumericCol ycol then
          match limit with
          | some lj =>
            if jsonTruthy lj then
              match lj with
              | .jnum n => .ok ⟨pyHead n ((groupSum xcol ycol).insertionSort descVal), yname⟩
              | _ => .error .crash
            else .ok ⟨groupSum xcol ycol, yname⟩
          | none => .ok ⟨groupSum xcol ycol, yname⟩
        else .ok ⟨valueCounts xcol, strCodes "count"⟩

/-- Models the main processing from the parsed model reply through the
prepared chart data (lines 140-186): the falsy-reply stop, the
missing-key validation, the column auto-correction, the `y` fallback and
the aggregation branches. A truthy non-object reply or a truthy
non-string `x` crashes on attribute access, as the script would. -/
def processSpec (df : DFrame) (chartInfo : Option Json) : Except AggErr AggOut :=
  match chartInfo with
  | none => .error .modelOutputInvalid
  | some info =>
    if ¬ jsonTruthy info then .error .modelOutputInvalid
    else
      match info with
      | .jobj ms =>
        let x? := objGet ms (strCodes "x")
        let y? := objGet ms (strCodes "y")
        let ct? := objGet ms (strCodes "chart_type")
        let limit? := objGet ms (strCodes "limit")
        if ¬ (truthyOpt x? ∧ truthyOpt y? ∧ truthyOpt ct?) then .error .missingKeys
        else
          match x?, y? with
          | some (.jstr xs), some yj =>
            match autoCorrectX (colNames df) xs with
            | .error e => .error e
            | .ok xname => prepareData df xname (resolveY (colNames df) yj) limit?
          | _, _ => .error .crash
      | _ => .error .crash

/-- A Unicode scalar value: a codepoint below U+110000 that is not a
surrogate. Python strings that are valid Unicode text contain only
these. -/
def ValidScalar (c : Nat) : Prop := c < 1114112 ∧ (c < 55296 ∨ 57344 ≤ c)

instance : DecidablePred ValidScalar := fun _ => instDecidableAnd

/-- Input that cannot extend a just-parsed integer numeral: it does not
begin with a digit, a decimal point or an exponent marker. -/
def numSafe : List Nat → Prop
  | [] => True
  | c :: _ => isDigit c = false ∧ c ≠ 46 ∧ c ≠ 101 ∧ c ≠ 69

mutual

/-- Fuel measure for the value parser: one unit per parser re-entry. -/
def sizeV : Json → Nat
  | .jnull => 1
  | .jbool _ => 1
  | .jnum _ => 1
  | .jstr _ => 1
  | .jarr l => 1 + sizeL l
  | .jobj m => 1 + sizeM m

/-- Fuel measure for the array-items parser. -/
def sizeL : List Json → Nat
  | [] => 1
  | v :: vs => 1 + sizeV v + sizeL vs

/-- Fuel measure for the object-members parser. -/
def sizeM : List (List Nat × Json) → Nat
  | [] => 1
  | (_, v) :: ms => 1 + sizeV v + sizeM ms

end

mutual

/-- Well-formed JSON values as Python produces them: every string is
valid Unicode text (scalar values only) and every object has distinct
keys, as a Python dict must. -/
def wfV : Json → Bool
  | .jnull => true
  | .jbool _ => true
  | .jnum _ => true
  | .jstr s => s.all (fun c => decide (ValidScalar c))
  | .jarr l => wfL l
  | .jobj m => wfM m

/-- Well-formedness of array items. -/
def wfL : List Json → Bool
  | [] => true
  | v :: vs => wfV v && wfL vs

/-- Well-formedness of object members, including key distinctness. -/
def wfM : List (List Nat × Json) → Bool
  | [] => true
  | (k, v) :: ms =>
    k.all (fun c => decide (ValidScalar c)) && wfV v && wfM ms &&
      ms.all (fun m => decide (m.1 ≠ k))

end

/-! ### Supporting lemmas about the aggregation model -/

/-- A column that `getCol` finds is one of the data frame's columns. -/
theorem getCol_mem {df : DFrame} {x : List Nat} {c : List Cell}
    (h : getCol df x = some c) : x ∈ colNames df := by
  unfold getCol at h
  rcases h' : df.find? (fun col => col.1 = x) with _ | col
  · rw [h'] at h
    simp at h
  · have := List.find?_some h'
    have hmem := List.mem_of_find?_eq_some h'
    simp only [decide_eq_true_eq] at this
    subst this
    exact List.mem_map_of_mem Prod.fst hmem

/-- Sortedness survives taking a front segment. -/
theorem sorted_take {r : Cell × Int → Cell × Int → Prop} {l : List (Cell × Int)} {n : Nat}
    (h : List.Sorted r l) : List.Sorted r (l.take n) :=
  List.Pairwise.sublist (List.take_sublist n l) h

/-- The frequency tally is sorted by descending count. -/
theorem sorted_valueCounts (xs : List Cell) : List.Sorted descVal (valueCounts xs) :=
  List.sorted_insertionSort descVal (tallyCounts xs)

/-- Every row of the frequency tally carries the occurrence count of its
category. -/
theorem valueCounts_count {xs : List Cell} {p : Cell × Int}
    (hp : p ∈ valueCounts xs) : p.2 = (xs.count p.1 : Int) := by
  have hp' : p ∈ tallyCounts xs :=
    (List.perm_insertionSort descVal (tallyCounts xs)).mem_iff.mp hp
  rcases List.mem_map.mp hp' with ⟨c, _, rfl⟩
  rfl

/-- Every row of the grouped sum carries the sum of the `y` values over
its category's rows. -/
theorem groupSum_value {xcol ycol : List Cell} {p : Cell × Int}
    (hp : p ∈ groupSum xcol ycol) : p.2 = sumForKey (xcol.zip ycol) p.1 := by
  unfold groupSum at hp
  have hp' := (List.perm_insertionSort keyLe _).mem_iff.mp hp
  rcases List.mem_map.mp hp' with ⟨c, _, rfl⟩
  rfl

/-- Reduction of the main processing to the data preparation step when
the specification has a truthy string `x` naming an existing column and
truthy `y` and `chart_type`. -/
theorem processSpec_eq (df : DFrame) (ms : List (List Nat × Json)) (xs : List Nat) (yj : Json)
    (hx : objGet ms (strCodes "x") = some (.jstr xs)) (hxs : xs ≠ [])
    (hy : objGet ms (strCodes "y") = some yj) (hyt : jsonTruthy yj = true)
    (hct : truthyOpt (objGet ms (strCodes "chart_type")) = true)
    (hxm : xs ∈ colNames df) :
    processSpec df (some (.jobj ms)) =
      prepareData df xs (resolveY (colNames df) yj) (objGet ms (strCodes "limit")) := by
  have hms : ms.isEmpty = false := by
    rcases ms with _ | _
    · simp [objGet] at hx
    · rfl
  have hxse : xs.isEmpty = false := by
    rcases xs with _ | _
    · exact absurd rfl hxs
    · rfl
  have hmst : jsonTruthy (.jobj ms) = true := by simp [jsonTruthy, hms]
  have hxst : jsonTruthy (.jstr xs) = true := by simp [jsonTruthy, hxse]
  have h1 : truthyOpt (some (Json.jstr xs)) = true := by simp [truthyOpt, hxst]
  have h2 : truthyOpt (some yj) = true := by simp [truthyOpt, hyt]
  simp [processSpec, hx, hy, hmst, h1, h2, hct, autoCorrectX, hxm]

/-! ### Round-trip lemmas: whitespace -/

/-- Skipping whitespace passes over a whitespace head. -/
theorem skipWs_cons_of_ws {c : Nat} (h : isJsonWs c = true) (s : List Nat) :
    skipWs (c :: s) = skipWs s := by
  simp [skipWs, List.dropWhile_cons, h]

/-- Skipping whitespace stops at a non-whitespace head. -/
theorem skipWs_cons_of_not_ws {c : Nat} (h : isJsonWs c = false) (s : List Nat) :
    skipWs (c :: s) = c :: s := by
  simp [skipWs, List.dropWhile_cons, h]

/-- Skipping whitespace passes over a run of spaces. -/
theorem skipWs_replicate_sp (k : Nat) (s : List Nat) :
    skipWs (List.replicate k 32 ++ s) = skipWs s := by
  induction k with
  | zero => simp
  | succ n ih =>
    rw [List.replicate_succ, List.cons_append, skipWs_cons_of_ws (show isJsonWs 32 = true from rfl)]
    exact ih

/-- Skipping whitespace passes over indentation. -/
theorem skipWs_pad (n : Nat) (s : List Nat) : skipWs (padSp n ++ s) = skipWs s :=
  skipWs_replicate_sp (2 * n) s

/-- Skipping whitespace is idempotent. -/
theorem skipWs_idem (s : List Nat) : skipWs (skipWs s) = skipWs s := by
  induction s with
  | nil => rfl
  | cons c t ih =>
    by_cases h : isJsonWs c = true
    · rw [skipWs_cons_of_ws h]
      exact ih
    · rw [skipWs_cons_of_not_ws (by simpa using h), skipWs_cons_of_not_ws (by simpa using h)]

/-- The value parser sees its input only through `skipWs`. -/
theorem parseVal_skipWs (fuel : Nat) (s : List Nat) :
    parseVal fuel (skipWs s) = parseVal fuel s := by
  cases fuel with
  | zero => rfl
  | succ f => simp only [parseVal, skipWs_idem]

/-- The value parser passes over a whitespace head. -/
theorem parseVal_ws_cons {c : Nat} (h : isJsonWs c = true) (fuel : Nat) (s : List Nat) :
    parseVal fuel (c :: s) = parseVal fuel s := by
  cases fuel with
  | zero => rfl
  | succ f => simp only [parseVal, skipWs_cons_of_ws h]

/-- The value parser passes over indentation. -/
theorem parseVal_pad (fuel n : Nat) (s : List Nat) :
    parseVal fuel (padSp n ++ s) = parseVal fuel s := by
  cases fuel with
  | zero => rfl
  | succ f => simp only [parseVal, skipWs_pad]

/-- The array-items parser passes over a whitespace head. -/
theorem parseElems_ws_cons {c : Nat} (h : isJsonWs c = true) (fuel : Nat) (s : List Nat) :
    parseElems fuel (c :: s) = parseElems fuel s := by
  cases fuel with
  | zero => rfl
  | succ f => simp only [parseElems, parseVal_ws_cons h]

/-- The array-items parser passes over indentation. -/
theorem parseElems_pad (fuel n : Nat) (s : List Nat) :
    parseElems fuel (padSp n ++ s) = parseElems fuel s := by
  cases fuel with
  | zero => rfl
  | succ f => simp only [parseElems, parseVal_pad]

/-! ### Round-trip lemmas: hex escapes and strings -/

/-- Parsing a hex digit back gives its value. -/
theorem hexVal_hexDig {d : Nat} (h : d < 16) : hexVal (hexDig d) = some d := by
  by_cases hd : d < 10
  · have h1 : hexDig d = 48 + d := by
      unfold hexDig
      rw [if_pos hd]
    rw [h1]
    unfold hexVal
    rw [if_pos (by omega)]
    congr 1
    omega
  · have h1 : hexDig d = 87 + d := by
      unfold hexDig
      rw [if_neg hd]
    rw [h1]
    unfold hexVal
    rw [if_neg (by omega), if_pos (by omega)]
    congr 1
    omega

/-- Parsing the four hex digits of a value below 65536 recovers it. -/
theorem hex4Val_toHex4 {n : Nat} (h : n < 65536) :
    hex4Val (hexDig (n / 4096 % 16)) (hexDig (n / 256 % 16))
        (hexDig (n / 16 % 16)) (hexDig (n % 16)) = some n := by
  unfold hex4Val
  rw [hexVal_hexDig (Nat.mod_lt _ (by omega)), hexVal_hexDig (Nat.mod_lt _ (by omega)),
      hexVal_hexDig (Nat.mod_lt _ (by omega)), hexVal_hexDig (Nat.mod_lt _ (by omega))]
  simp only [Option.bind_eq_bind, Option.some_bind, Option.pure_def, Option.some.injEq]
  omega

/-- Reduction of the string scanner on a `\uNNNN` escape with known hex
value. -/
theorem parseStrAux_unicode_some (fuel a b c2 d n : Nat) (rest3 : List Nat)
    (hx : hex4Val a b c2 d = some n) :
    parseStrAux (fuel + 1) (92 :: 117 :: a :: b :: c2 :: d :: rest3) =
      if 55296 ≤ n ∧ n < 56320 then
        (parseStrAux fuel (surrPair n rest3).2).map
          (fun p => ((surrPair n rest3).1 :: p.1, p.2))
      else (parseStrAux fuel rest3).map (fun p => (n :: p.1, p.2)) := by
  simp [parseStrAux, hx]

/-- Reduction of the surrogate lookahead on a low-surrogate escape. -/
theorem surrPair_some (n a b c2 d m : Nat) (rest4 : List Nat)
    (hx : hex4Val a b c2 d = some m) (hm : 56320 ≤ m ∧ m < 57344) :
    surrPair n (92 :: 117 :: a :: b :: c2 :: d :: rest4) =
      (65536 + 1024 * (n - 55296) + (m - 56320), rest4) := by
  simp [surrPair, hx, hm]

/-- One escaped character at the head of a string body: the scanner
decodes it and recurses on the remainder with one unit of fuel spent. -/
theorem parseStrAux_step (c : Nat) (hc : ValidScalar c) (z : List Nat) (fuel : Nat) :
    parseStrAux (fuel + 1) (escChar c ++ z) =
      (parseStrAux fuel z).map (fun p => (c :: p.1, p.2)) := by
  obtain ⟨hlt, hsur⟩ := hc
  by_cases h34 : c = 34
  · subst h34
    simp [escChar, parseStrAux]
  by_cases h92 : c = 92
  · subst h92
    simp [escChar, parseStrAux]
  by_cases h8 : c = 8
  · subst h8
    simp [escChar, parseStrAux]
  by_cases h9 : c = 9
  · subst h9
    simp [escChar, parseStrAux]
  by_cases h10 : c = 10
  · subst h10
    simp [escChar, parseStrAux]
  by_cases h12 : c = 12
  · subst h12
    simp [escChar, parseStrAux]
  by_cases h13 : c = 13
  · subst h13
    simp [escChar, parseStrAux]
  by_cases hlit : 32 ≤ c ∧ c ≤ 126
  · have he : escChar c = [c] := by
      unfold escChar
      rw [if_neg h34, if_neg h92, if_neg h8, if_neg h9, if_neg h10, if_neg h12, if_neg h13,
          if_pos hlit]
    rw [he, List.singleton_append]
    simp only [parseStrAux]
    rw [if_neg h34, if_neg h92, if_pos hlit.1]
  by_cases hbmp : c < 65536
  · have he : escChar c = 92 :: 117 :: toHex4 c := by
      unfold escChar
      rw [if_neg h34, if_neg h92, if_neg h8, if_neg h9, if_neg h10, if_neg h12, if_neg h13,
          if_neg hlit, if_pos hbmp]
    have hnotsur : ¬ (55296 ≤ c ∧ c < 56320) := by omega
    rw [he]
    simp only [toHex4, List.cons_append, List.nil_append]
    simp [parseStrAux, hex4Val_toHex4 hbmp, hnotsur]
  · have he : escChar c = 92 :: 117 :: toHex4 (55296 + (c - 65536) / 1024) ++
        92 :: 117 :: toHex4 (56320 + (c - 65536) % 1024) := by
      unfold escChar
      rw [if_neg h34, if_neg h92, if_neg h8, if_neg h9, if_neg h10, if_neg h12, if_neg h13,
          if_neg hlit, if_neg hbmp]
    have hhi : 55296 + (c - 65536) / 1024 < 65536 := by omega
    have hlo : 56320 + (c - 65536) % 1024 < 65536 := by omega
    have hsurhi : 55296 ≤ 55296 + (c - 65536) / 1024 ∧ 55296 + (c - 65536) / 1024 < 56320 := by
      omega
    have hsurlo : 56320 ≤ 56320 + (c - 65536) % 1024 ∧ 56320 + (c - 65536) % 1024 < 57344 := by
      omega
    rw [he]
    simp only [toHex4, List.cons_append, List.nil_append]
    rw [parseStrAux_unicode_some _ _ _ _ _ _ _ (hex4Val_toHex4 hhi), if_pos hsurhi,
        surrPair_some _ _ _ _ _ _ _ (hex4Val_toHex4 hlo) hsurlo]
    have hcomb : 65536 + 1024 * (55296 + (c - 65536) / 1024 - 55296) +
        (56320 + (c - 65536) % 1024 - 56320) = c := by omega
    rw [hcomb]

/-- Every escaped character occupies at least one character. -/
theorem escChar_length_pos (c : Nat) : 1 ≤ (escChar c).length := by
  unfold escChar
  repeat' split
  all_goals simp

/-- The escaped body is at least as long as the string. -/
theorem escStr_length_ge (cs : List Nat) : cs.length ≤ (escStr cs).length := by
  induction cs with
  | nil => simp [escStr]
  | cons c t ih =>
    have h1 := escChar_length_pos c
    have h2 : escStr (c :: t) = escChar c ++ escStr t := by simp [escStr]
    rw [h2, List.length_append, List.length_cons]
    omega

/-- Round trip for string bodies: scanning the escaped body followed by
the closing quote recovers the original codepoints, for any fuel above
the string length. -/
theorem parseStr_escStr (cs : List Nat) :
    ∀ (rest : List Nat) (fuel : Nat), (∀ c ∈ cs, ValidScalar c) →
      cs.length + 1 ≤ fuel →
      parseStrAux fuel (escStr cs ++ 34 :: rest) = some (cs, rest) := by
  induction cs with
  | nil =>
    intro rest fuel _ hf
    rcases fuel with _ | f
    · omega
    · simp [escStr, parseStrAux]
  | cons c t ih =>
    intro rest fuel hval hf
    rcases fuel with _ | f
    · omega
    · have hesc : escStr (c :: t) = escChar c ++ escStr t := by simp [escStr]
      rw [hesc, List.append_assoc, parseStrAux_step c (hval c (by simp)) _ f,
          ih rest f (fun x hx => hval x (by simp [hx])) (by simp at hf; omega)]
      rfl

/-! ### Round-trip lemmas: numerals -/

/-- Fuel irrelevance of the decimal-digit worker. -/
theorem natDecAux_irrel : ∀ (f g n : Nat), n < f → n < g → natDecAux f n = natDecAux g n := by
  intro f
  induction f with
  | zero => intro g n hf; omega
  | succ f' ih =>
    intro g n hf hg
    rcases g with _ | g'
    · omega
    · by_cases h10 : n < 10
      · simp [natDecAux, h10]
      · have hd : n / 10 < n := Nat.div_lt_self (by omega) (by omega)
        simp only [natDecAux, if_neg h10]
        rw [ih g' (n / 10) (by omega) (by omega)]

/-- Recursion equation of the decimal rendering. -/
theorem natDec_eq (n : Nat) :
    natDec n = if n < 10 then [48 + n] else natDec (n / 10) ++ [48 + n % 10] := by
  have hstep : natDecAux (n + 1) n =
      if n < 10 then [48 + n] else natDecAux n (n / 10) ++ [48 + n % 10] := rfl
  by_cases h10 : n < 10
  · rw [show natDec n = natDecAux (n + 1) n from rfl, hstep, if_pos h10, if_pos h10]
  · have hd : n / 10 < n := Nat.div_lt_self (by omega) (by omega)
    rw [show natDec n = natDecAux (n + 1) n from rfl, hstep, if_neg h10, if_neg h10]
    congr 1
    rw [show natDec (n / 10) = natDecAux (n / 10 + 1) (n / 10) from rfl]
    exact natDecAux_irrel n (n / 10 + 1) (n / 10) (by omega) (by omega)

/-- Every character of the decimal rendering is a digit. -/
theorem natDec_all_digit (n : Nat) : ∀ d ∈ natDec n, isDigit d = true := by
  induction n using Nat.strong_induction_on with
  | _ n ih =>
    rw [natDec_eq]
    by_cases h10 : n < 10
    · rw [if_pos h10]
      intro d hd
      simp at hd
      subst hd
      simp only [isDigit, Bool.and_eq_true, decide_eq_true_eq]
      omega
    · rw [if_neg h10]
      intro d hd
      rcases List.mem_append.mp hd with h | h
      · exact ih (n / 10) (Nat.div_lt_self (by omega) (by omega)) d h
      · simp at h
        subst h
        simp only [isDigit, Bool.and_eq_true, decide_eq_true_eq]
        omega

/-- The decimal rendering is nonempty, and its leading digit is nonzero
for a positive number. -/
theorem natDec_cons (n : Nat) :
    ∃ d t, natDec n = d :: t ∧ isDigit d = true ∧ (1 ≤ n → d ≠ 48) := by
  induction n using Nat.strong_induction_on with
  | _ n ih =>
    rw [natDec_eq]
    by_cases h10 : n < 10
    · exact ⟨48 + n, [], by simp [h10],
        by simp only [isDigit, Bool.and_eq_true, decide_eq_true_eq]; omega, by omega⟩
    · obtain ⟨d, t, hdt, hdig, hnz⟩ := ih (n / 10) (Nat.div_lt_self (by omega) (by omega))
      exact ⟨d, t ++ [48 + n % 10], by simp [h10, hdt], hdig,
        fun _ => hnz (by omega)⟩

/-- Digit-fold value of the decimal rendering. -/
theorem natDec_foldl (n : Nat) : ∀ acc : Nat,
    (natDec n).foldl (fun a d => a * 10 + (d - 48)) acc =
      acc * 10 ^ (natDec n).length + n := by
  induction n using Nat.strong_induction_on with
  | _ n ih =>
    intro acc
    rw [natDec_eq]
    by_cases h10 : n < 10
    · simp [h10]
    · rw [if_neg h10]
      rw [List.foldl_append, List.length_append]
      rw [ih (n / 10) (Nat.div_lt_self (by omega) (by omega)) acc]
      simp only [List.foldl_cons, List.foldl_nil, List.length_cons, List.length_nil,
        Nat.zero_add]
      rw [Nat.pow_succ, ← Nat.mul_assoc]
      have h48 : 48 + n % 10 - 48 = n % 10 := by omega
      rw [h48]
      generalize acc * 10 ^ (natDec (n / 10)).length = B
      omega

/-- The digit accumulator stops at a non-digit head. -/
theorem digitsAux_stop (acc : Nat) (rest : List Nat) (h : numSafe rest) :
    digitsAux acc rest = (acc, rest) := by
  cases rest with
  | nil => rfl
  | cons c t =>
    obtain ⟨hd, _, _, _⟩ := h
    simp [digitsAux, hd]

/-- The digit accumulator folds a run of digits and stops at safe input. -/
theorem digitsAux_digits : ∀ (ds : List Nat) (acc : Nat) (rest : List Nat),
    (∀ d ∈ ds, isDigit d = true) → numSafe rest →
    digitsAux acc (ds ++ rest) =
      (ds.foldl (fun a d => a * 10 + (d - 48)) acc, rest) := by
  intro ds
  induction ds with
  | nil =>
    intro acc rest _ hrest
    simpa using digitsAux_stop acc rest hrest
  | cons d ds ih =>
    intro acc rest hds hrest
    have hd := hds d (by simp)
    simp only [List.cons_append, digitsAux, hd, if_true, List.foldl_cons]
    exact ih _ rest (fun x hx => hds x (by simp [hx])) hrest

/-- Round trip for unsigned integer parts. -/
theorem parseNat0_natDec (n : Nat) (rest : List Nat) (h : numSafe rest) :
    parseNat0 (natDec n ++ rest) = some (n, rest) := by
  by_cases h0 : n = 0
  · subst h0
    have h48 : natDec 0 = [48] := by simp [natDec_eq]
    rw [h48]
    cases rest with
    | nil => rfl
    | cons c t =>
      obtain ⟨hd, _, _, _⟩ := h
      simp [parseNat0, hd]
  · obtain ⟨d, t, hdt, hdig, hnz⟩ := natDec_cons n
    have hne48 : d ≠ 48 := hnz (by omega)
    have halld := natDec_all_digit n
    rw [hdt] at halld
    rw [hdt, List.cons_append]
    simp only [parseNat0, if_neg hne48, hdig, if_true]
    rw [digitsAux_digits t (d - 48) rest (fun x hx => halld x (by simp [hx])) h]
    have hfold := natDec_foldl n 0
    rw [hdt] at hfold
    simp only [List.foldl_cons] at hfold
    simp only [Nat.zero_mul, Nat.zero_add] at hfold
    rw [hfold]

/-- Round trip for signed integer numerals. -/
theorem parseNum_intDec (i : Int) (rest : List Nat) (h : numSafe rest) :
    parseNum (intDec i ++ rest) = some (i, rest) := by
  by_cases hneg : i < 0
  · have : intDec i = 45 :: natDec (-i).toNat := by
      unfold intDec
      rw [if_pos hneg]
    rw [this, List.cons_append]
    simp only [parseNum]
    rw [parseNat0_natDec _ rest h]
    simp only [Option.map_some']
    have h2 : -(((-i).toNat : Nat) : Int) = i := by omega
    rw [h2]
  · have hd : intDec i = natDec i.toNat := by
      unfold intDec
      rw [if_neg hneg]
    obtain ⟨d, t, hdt, hdig, _⟩ := natDec_cons i.toNat
    have hne45 : d ≠ 45 := by
      simp [isDigit] at hdig
      omega
    rw [hd, hdt, List.cons_append]
    unfold parseNum
    split
    · rename_i heq
      exfalso
      apply hne45
      injection heq
    · rw [← List.cons_append, ← hdt, parseNat0_natDec _ rest h]
      simp only [Option.map_some']
      rw [Int.toNat_of_nonneg (by omega)]

/-- A safe tail cannot extend the numeral into a float. -/
theorem noFloatTail_of_numSafe (s : List Nat) (h : numSafe s) : noFloatTail s = true := by
  cases s with
  | nil => rfl
  | cons c t =>
    obtain ⟨_, h46, h101, h69⟩ := h
    simp [noFloatTail, h46, h101, h69]

/-! ### Round-trip lemmas: values -/

/-- The serialized integer starts with a minus sign or a digit. -/
theorem intDec_head (i : Int) :
    ∃ c t, intDec i = c :: t ∧ (c = 45 ∨ (48 ≤ c ∧ c ≤ 57)) := by
  by_cases hneg : i < 0
  · refine ⟨45, natDec (-i).toNat, ?_, Or.inl rfl⟩
    unfold intDec
    rw [if_pos hneg]
  · obtain ⟨d, t, hdt, hdig, _⟩ := natDec_cons i.toNat
    refine ⟨d, t, ?_, Or.inr ?_⟩
    · unfold intDec
      rw [if_neg hneg]
      exact hdt
    · simpa [isDigit] using hdig

/-- The first character of a serialized value is one of the value-start
characters: a keyword or string or bracket opener, a minus sign or a
digit. -/
theorem dumpVal_head (lvl : Nat) (v : Json) :
    ∃ c t, dumpVal lvl v = c :: t ∧
      (c = 110 ∨ c = 116 ∨ c = 102 ∨ c = 34 ∨ c = 91 ∨ c = 123 ∨ c = 45 ∨
       (48 ≤ c ∧ c ≤ 57)) := by
  cases v with
  | jnull => exact ⟨110, [117, 108, 108], rfl, by omega⟩
  | jbool b =>
    cases b with
    | true => exact ⟨116, [114, 117, 101], rfl, by omega⟩
    | false => exact ⟨102, [97, 108, 115, 101], rfl, by omega⟩
  | jnum i =>
    obtain ⟨c, t, hdt, hc⟩ := intDec_head i
    exact ⟨c, t, hdt, by omega⟩
  | jstr s => exact ⟨34, escStr s ++ [34], rfl, by omega⟩
  | jarr l =>
    cases l with
    | nil => exact ⟨91, [93], rfl, by omega⟩
    | cons v vs => exact ⟨91, 10 :: dumpElems lvl (v :: vs), rfl, by omega⟩
  | jobj m =>
    cases m with
    | nil => exact ⟨123, [125], rfl, by omega⟩
    | cons kv ms => exact ⟨123, 10 :: dumpMems lvl (kv :: ms), rfl, by omega⟩

/-- A serialized value followed by anything is untouched by `skipWs`. -/
theorem skipWs_dumpVal_append (lvl : Nat) (v : Json) (X : List Nat) :
    skipWs (dumpVal lvl v ++ X) = dumpVal lvl v ++ X := by
  obtain ⟨c, t, hdt, hc⟩ := dumpVal_head lvl v
  rw [hdt, List.cons_append]
  exact skipWs_cons_of_not_ws (by simp [isJsonWs]; omega) _

/-- The items parser sees its input only through the value parser, so a
leading `skipWs` is harmless. -/
theorem parseElems_skipWs (fuel : Nat) (s : List Nat) :
    parseElems fuel (skipWs s) = parseElems fuel s := by
  cases fuel with
  | zero => rfl
  | succ f => simp only [parseElems, parseVal_skipWs]

/-- Every value occupies at least one fuel unit. -/
theorem sizeV_pos (v : Json) : 1 ≤ sizeV v := by
  cases v <;> simp [sizeV]

/-- Inserting a key absent from the collapsed members just conses it. -/
theorem insertMem_of_not_mem (k : List Nat) (v : Json) (ms : List (List Nat × Json))
    (h : ∀ m ∈ ms, m.1 ≠ k) : insertMem k v ms = (k, v) :: ms := by
  have hf : (ms.find? (fun m => m.1 = k)) = none :=
    List.find?_eq_none.mpr (fun m hm => by simp [h m hm])
  simp [insertMem, hf]

/-- Reduction of the value parser at an opening bracket. -/
theorem parseVal_lbracket (f : Nat) (s : List Nat) :
    parseVal (f + 1) (91 :: s) =
      (match skipWs s with
       | 93 :: r => some (.jarr [], r)
       | r => (parseElems f r).map (fun p => (.jarr p.1, p.2))) := by
  simp [parseVal, skipWs_cons_of_not_ws (show isJsonWs 91 = false from rfl)]

/-- Reduction of the value parser at an opening brace. -/
theorem parseVal_lbrace (f : Nat) (s : List Nat) :
    parseVal (f + 1) (123 :: s) =
      (match skipWs s with
       | 125 :: r => some (.jobj [], r)
       | r => (parseMems f r).map (fun p => (.jobj p.1, p.2))) := by
  simp [parseVal, skipWs_cons_of_not_ws (show isJsonWs 123 = false from rfl)]

/-- Reduction of the value parser at an opening quote. -/
theorem parseVal_quote (f : Nat) (r : List Nat) :
    parseVal (f + 1) (34 :: r) =
      (parseStrAux (r.length + 1) r).map (fun p => (.jstr p.1, p.2)) := by
  simp [parseVal, skipWs_cons_of_not_ws (show isJsonWs 34 = false from rfl)]

/-- Reduction of the member parser at the opening quote of a key. -/
theorem parseMems_quote (f : Nat) (r : List Nat) :
    parseMems (f + 1) (34 :: r) =
      (match parseStrAux (r.length + 1) r with
       | none => none
       | some (k, r1) =>
         match skipWs r1 with
         | 58 :: r2 =>
           match parseVal f r2 with
           | none => none
           | some (v, r3) =>
             match skipWs r3 with
             | 44 :: r4 => (parseMems f (skipWs r4)).map (fun p => (insertMem k v p.1, p.2))
             | 125 :: r4 => some ([(k, v)], r4)
             | _ => none
         | _ => none) := rfl

mutual

/-- Round trip for values: parsing the pretty-printed serialization of a
well-formed value at any indentation level recovers the value and leaves
the appended rest untouched, given fuel at least the value's size and a
rest that cannot extend a numeral. -/
theorem rtV (v : Json) (lvl : Nat) (rest : List Nat) (fuel : Nat)
    (hwf : wfV v = true) (hns : numSafe rest) (hf : sizeV v ≤ fuel) :
    parseVal fuel (dumpVal lvl v ++ rest) = some (v, rest) := by
  cases v with
  | jnull =>
    rcases fuel with _ | f
    · simp [sizeV] at hf
    · have hd : dumpVal lvl Json.jnull ++ rest = 110 :: 117 :: 108 :: 108 :: rest := rfl
      rw [hd]
      simp [parseVal, skipWs, List.dropWhile_cons, isJsonWs]
  | jbool b =>
    rcases fuel with _ | f
    · simp [sizeV] at hf
    · cases b with
      | true =>
        have hd : dumpVal lvl (Json.jbool true) ++ rest = 116 :: 114 :: 117 :: 101 :: rest := rfl
        rw [hd]
        simp [parseVal, skipWs, List.dropWhile_cons, isJsonWs]
      | false =>
        have hd : dumpVal lvl (Json.jbool false) ++ rest =
            102 :: 97 :: 108 :: 115 :: 101 :: rest := rfl
        rw [hd]
        simp [parseVal, skipWs, List.dropWhile_cons, isJsonWs]
  | jnum i =>
    rcases fuel with _ | f
    · simp [sizeV] at hf
    · obtain ⟨c, t, hdt, hc⟩ := intDec_head i
      have hdv : dumpVal lvl (Json.jnum i) = intDec i := rfl
      have hpn : parseNum (c :: (t ++ rest)) = some (i, rest) := by
        rw [← List.cons_append, ← hdt]
        exact parseNum_intDec i rest hns
      have hnws : isJsonWs c = false := by simp [isJsonWs]; omega
      have h110 : c ≠ 110 := by omega
      have h116 : c ≠ 116 := by omega
      have h102 : c ≠ 102 := by omega
      have h34 : c ≠ 34 := by omega
      have h123 : c ≠ 123 := by omega
      have h91 : c ≠ 91 := by omega
      rw [hdv, hdt, List.cons_append]
      simp only [parseVal]
      rw [skipWs_cons_of_not_ws hnws]
      simp [h110, h116, h102, h34, h123, h91, hpn, noFloatTail_of_numSafe rest hns]
  | jstr s =>
    rcases fuel with _ | f
    · simp [sizeV] at hf
    · have hval : ∀ c ∈ s, ValidScalar c := by
        intro c hcs
        have h := hwf
        simp only [wfV, List.all_eq_true, decide_eq_true_eq] at h
        exact h c hcs
      have hd : dumpVal lvl (Json.jstr s) ++ rest = 34 :: (escStr s ++ 34 :: rest) := by
        show (34 :: (escStr s ++ [34])) ++ rest = _
        simp
      rw [hd, parseVal_quote]
      rw [parseStr_escStr s rest _ hval
        (by
          have := escStr_length_ge s
          simp [List.length_append]
          omega)]
      rfl
  | jarr l =>
    cases l with
    | nil =>
      rcases fuel with _ | f
      · simp [sizeV, sizeL] at hf
      · have hd : dumpVal lvl (Json.jarr []) ++ rest = 91 :: 93 :: rest := rfl
        rw [hd]
        simp [parseVal, skipWs, List.dropWhile_cons, isJsonWs]
    | cons v vs =>
      rcases fuel with _ | f
      · simp [sizeV] at hf
      · have hd : dumpVal lvl (Json.jarr (v :: vs)) ++ rest =
            91 :: (10 :: (dumpElems lvl (v :: vs) ++ rest)) := by
          show (91 :: 10 :: dumpElems lvl (v :: vs)) ++ rest = _
          simp
        rw [hd, parseVal_lbracket]
        rw [skipWs_cons_of_ws (show isJsonWs 10 = true from rfl)]
        obtain ⟨c, t, hdt, hc⟩ := dumpVal_head (lvl + 1) v
        obtain ⟨TAIL, hTAIL⟩ : ∃ TAIL,
            dumpElems lvl (v :: vs) = padSp (lvl + 1) ++ (dumpVal (lvl + 1) v ++ TAIL) := by
          cases vs with
          | nil => exact ⟨10 :: (padSp lvl ++ [93]), by simp [dumpElems]⟩
          | cons v2 vs2 => exact ⟨44 :: 10 :: dumpElems lvl (v2 :: vs2), by simp [dumpElems]⟩
        have hsk : skipWs (dumpElems lvl (v :: vs) ++ rest) = c :: (t ++ (TAIL ++ rest)) := by
          rw [hTAIL]
          simp only [List.append_assoc]
          rw [skipWs_pad, skipWs_dumpVal_append, hdt, List.cons_append]
        rw [hsk]
        split
        · rename_i r heq
          have hc93 : c = 93 := by injection heq
          omega
        · rw [← hsk, parseElems_skipWs]
          rw [rtL (v :: vs) lvl rest f (by simp) (by simpa [wfV] using hwf)
            (by simp only [sizeV] at hf; omega)]
          rfl
  | jobj m =>
    cases m with
    | nil =>
      rcases fuel with _ | f
      · simp [sizeV, sizeM] at hf
      · have hd : dumpVal lvl (Json.jobj []) ++ rest = 123 :: 125 :: rest := rfl
        rw [hd]
        simp [parseVal, skipWs, List.dropWhile_cons, isJsonWs]
    | cons kv ms =>
      rcases fuel with _ | f
      · simp [sizeV] at hf
      · have hd : dumpVal lvl (Json.jobj (kv :: ms)) ++ rest =
            123 :: (10 :: (dumpMems lvl (kv :: ms) ++ rest)) := by
          show (123 :: 10 :: dumpMems lvl (kv :: ms)) ++ rest = _
          simp
        rw [hd, parseVal_lbrace]
        rw [skipWs_cons_of_ws (show isJsonWs 10 = true from rfl)]
        obtain ⟨k, v⟩ := kv
        obtain ⟨TAIL, hTAIL⟩ : ∃ TAIL,
            dumpMems lvl ((k, v) :: ms) = padSp (lvl + 1) ++ (34 :: ((escStr k ++ [34]) ++
              ((58 :: 32 :: dumpVal (lvl + 1) v) ++ TAIL))) := by
          cases ms with
          | nil => exact ⟨10 :: (padSp lvl ++ [125]), by simp [dumpMems]⟩
          | cons kv2 ms2 => exact ⟨44 :: 10 :: dumpMems lvl (kv2 :: ms2), by simp [dumpMems]⟩
        have hsk : skipWs (dumpMems lvl ((k, v) :: ms) ++ rest) =
            34 :: (((escStr k ++ [34]) ++ ((58 :: 32 :: dumpVal (lvl + 1) v) ++ TAIL)) ++ rest) := by
          rw [hTAIL]
          simp only [List.append_assoc, List.cons_append]
          rw [skipWs_pad]
          exact skipWs_cons_of_not_ws (show isJsonWs 34 = false from rfl) _
        rw [hsk]
        split
        · rename_i r heq
          injection heq with h1 _
          omega
        · rw [← hsk]
          rw [rtM ((k, v) :: ms) lvl rest f (by simp) (by simpa [wfV] using hwf)
            (by simp only [sizeV] at hf; omega)]
          rfl

/-- Round trip for nonempty array item lists: parsing the serialized
items, including the closing bracket line, recovers the list. -/
theorem rtL (l : List Json) (lvl : Nat) (rest : List Nat) (fuel : Nat)
    (hne : l ≠ []) (hwf : wfL l = true) (hf : sizeL l ≤ fuel) :
    parseElems fuel (dumpElems lvl l ++ rest) = some (l, rest) := by
  cases l with
  | nil => exact absurd rfl hne
  | cons v vs =>
    rcases fuel with _ | f
    · have := sizeV_pos v
      simp only [sizeL] at hf
      omega
    · have hwf' := hwf
      simp only [wfL, Bool.and_eq_true] at hwf'
      obtain ⟨hvwf, hvswf⟩ := hwf'
      simp only [parseElems]
      cases vs with
      | nil =>
        have harr : dumpElems lvl [v] ++ rest =
            padSp (lvl + 1) ++ (dumpVal (lvl + 1) v ++ (10 :: (padSp lvl ++ (93 :: rest)))) := by
          show (padSp (lvl + 1) ++ dumpVal (lvl + 1) v ++ (10 :: (padSp lvl ++ [93]))) ++ rest = _
          simp
        rw [harr, parseVal_pad]
        rw [rtV v (lvl + 1) (10 :: (padSp lvl ++ (93 :: rest))) f hvwf ⟨rfl, by omega, by omega,
          by omega⟩ (by simp only [sizeL] at hf; omega)]
        simp only [skipWs_cons_of_ws (show isJsonWs 10 = true from rfl), skipWs_pad,
          skipWs_cons_of_not_ws (show isJsonWs 93 = false from rfl)]
      | cons v2 vs2 =>
        have harr : dumpElems lvl (v :: v2 :: vs2) ++ rest =
            padSp (lvl + 1) ++ (dumpVal (lvl + 1) v ++
              (44 :: 10 :: (dumpElems lvl (v2 :: vs2) ++ rest))) := by
          show (padSp (lvl + 1) ++ dumpVal (lvl + 1) v ++
              (44 :: 10 :: dumpElems lvl (v2 :: vs2))) ++ rest = _
          simp
        rw [harr, parseVal_pad]
        rw [rtV v (lvl + 1) (44 :: 10 :: (dumpElems lvl (v2 :: vs2) ++ rest)) f hvwf
          ⟨rfl, by omega, by omega, by omega⟩ (by simp only [sizeL] at hf; omega)]
        simp only [skipWs_cons_of_not_ws (show isJsonWs 44 = false from rfl)]
        rw [parseElems_ws_cons (show isJsonWs 10 = true from rfl)]
        rw [rtL (v2 :: vs2) lvl rest f (by simp) hvswf
          (by
            have := sizeV_pos v
            simp only [sizeL] at hf ⊢
            omega)]
        rfl

/-- Round trip for nonempty object member lists: parsing the serialized
members, including the closing brace line, recovers the list; distinct
keys make the dict insertion a plain cons. -/
theorem rtM (ms : List (List Nat × Json)) (lvl : Nat) (rest : List Nat) (fuel : Nat)
    (hne : ms ≠ []) (hwf : wfM ms = true) (hf : sizeM ms ≤ fuel) :
    parseMems fuel (skipWs (dumpMems lvl ms ++ rest)) = some (ms, rest) := by
  cases ms with
  | nil => exact absurd rfl hne
  | cons kv ms' =>
    obtain ⟨k, v⟩ := kv
    rcases fuel with _ | f
    · have := sizeV_pos v
      simp only [sizeM] at hf
      omega
    · have hwf' := hwf
      simp only [wfM, Bool.and_eq_true] at hwf'
      obtain ⟨⟨⟨hkval, hvwf⟩, hmswf⟩, hnodup⟩ := hwf'
      have hkey : ∀ c ∈ k, ValidScalar c := by
        simp only [List.all_eq_true, decide_eq_true_eq] at hkval
        exact hkval
      cases ms' with
      | nil =>
        have hsk : skipWs (dumpMems lvl [(k, v)] ++ rest) =
            34 :: (escStr k ++ 34 :: (58 :: (32 :: (dumpVal (lvl + 1) v ++
              (10 :: (padSp lvl ++ (125 :: rest))))))) := by
          show skipWs ((padSp (lvl + 1) ++ (34 :: (escStr k ++ [34])) ++
              (58 :: 32 :: dumpVal (lvl + 1) v) ++ (10 :: (padSp lvl ++ [125]))) ++ rest) = _
          simp only [List.append_assoc, List.cons_append, List.singleton_append]
          rw [skipWs_pad]
          exact skipWs_cons_of_not_ws (show isJsonWs 34 = false from rfl) _
        rw [hsk, parseMems_quote]
        have hps : parseStrAux ((escStr k ++ 34 :: (58 :: (32 :: (dumpVal (lvl + 1) v ++
            (10 :: (padSp lvl ++ (125 :: rest))))))).length + 1)
            (escStr k ++ 34 :: (58 :: (32 :: (dumpVal (lvl + 1) v ++
            (10 :: (padSp lvl ++ (125 :: rest))))))) =
            some (k, 58 :: (32 :: (dumpVal (lvl + 1) v ++
              (10 :: (padSp lvl ++ (125 :: rest)))))) := by
          apply parseStr_escStr k _ _ hkey
          have := escStr_length_ge k
          simp [List.length_append]
          omega
        simp only [hps, skipWs_cons_of_not_ws (show isJsonWs 58 = false from rfl)]
        rw [parseVal_ws_cons (show isJsonWs 32 = true from rfl)]
        rw [rtV v (lvl + 1) (10 :: (padSp lvl ++ (125 :: rest))) f hvwf
          ⟨rfl, by omega, by omega, by omega⟩ (by simp only [sizeM] at hf; omega)]
        simp only [skipWs_cons_of_ws (show isJsonWs 10 = true from rfl), skipWs_pad,
          skipWs_cons_of_not_ws (show isJsonWs 125 = false from rfl)]
      | cons kv2 ms2 =>
        have hsk : skipWs (dumpMems lvl ((k, v) :: kv2 :: ms2) ++ rest) =
            34 :: (escStr k ++ 34 :: (58 :: (32 :: (dumpVal (lvl + 1) v ++
              (44 :: (10 :: (dumpMems lvl (kv2 :: ms2) ++ rest))))))) := by
          show skipWs ((padSp (lvl + 1) ++ (34 :: (escStr k ++ [34])) ++
              (58 :: 32 :: dumpVal (lvl + 1) v) ++
              (44 :: 10 :: dumpMems lvl (kv2 :: ms2))) ++ rest) = _
          simp only [List.append_assoc, List.cons_append, List.singleton_append]
          rw [skipWs_pad]
          exact skipWs_cons_of_not_ws (show isJsonWs 34 = false from rfl) _
        rw [hsk, parseMems_quote]
        have hps : parseStrAux ((escStr k ++ 34 :: (58 :: (32 :: (dumpVal (lvl + 1) v ++
            (44 :: (10 :: (dumpMems lvl (kv2 :: ms2) ++ rest))))))).length + 1)
            (escStr k ++ 34 :: (58 :: (32 :: (dumpVal (lvl + 1) v ++
            (44 :: (10 :: (dumpMems lvl (kv2 :: ms2) ++ rest))))))) =
            some (k, 58 :: (32 :: (dumpVal (lvl + 1) v ++
              (44 :: (10 :: (dumpMems lvl (kv2 :: ms2) ++ rest)))))) := by
          apply parseStr_escStr k _ _ hkey
          have := escStr_length_ge k
          simp [List.length_append]
          omega
        simp only [hps, skipWs_cons_of_not_ws (show isJsonWs 58 = false from rfl)]
        rw [parseVal_ws_cons (show isJsonWs 32 = true from rfl)]
        rw [rtV v (lvl + 1) (44 :: (10 :: (dumpMems lvl (kv2 :: ms2) ++ rest))) f hvwf
          ⟨rfl, by omega, by omega, by omega⟩ (by simp only [sizeM] at hf; omega)]
        simp only [skipWs_cons_of_not_ws (show isJsonWs 44 = false from rfl)]
        rw [skipWs_cons_of_ws (show isJsonWs 10 = true from rfl)]
        rw [rtM (kv2 :: ms2) lvl rest f (by simp) hmswf
          (by
            have := sizeV_pos v
            simp only [sizeM] at hf ⊢
            omega)]
        have hins : insertMem k v (kv2 :: ms2) = (k, v) :: kv2 :: ms2 := by
          apply insertMem_of_not_mem
          intro m hm
          simp only [List.all_eq_true, decide_eq_true_eq] at hnodup
          exact hnodup m hm
        simp [hins]

end

/-- Expansion of the item serializer at a final item. -/
theorem dumpElems_cons_nil (lvl : Nat) (v : Json) :
    dumpElems lvl [v] =
      padSp (lvl + 1) ++ dumpVal (lvl + 1) v ++ (10 :: (padSp lvl ++ [93])) := rfl

/-- Expansion of the item serializer at a non-final item. -/
theorem dumpElems_cons_cons (lvl : Nat) (v v2 : Json) (vs2 : List Json) :
    dumpElems lvl (v :: v2 :: vs2) =
      padSp (lvl + 1) ++ dumpVal (lvl + 1) v ++ (44 :: 10 :: dumpElems lvl (v2 :: vs2)) := rfl

/-- Expansion of the member serializer at a final member. -/
theorem dumpMems_cons_nil (lvl : Nat) (k : List Nat) (v : Json) :
    dumpMems lvl [(k, v)] =
      padSp (lvl + 1) ++ (34 :: (escStr k ++ [34])) ++ (58 :: 32 :: dumpVal (lvl + 1) v) ++
        (10 :: (padSp lvl ++ [125])) := rfl

/-- Expansion of the member serializer at a non-final member. -/
theorem dumpMems_cons_cons (lvl : Nat) (k : List Nat) (v : Json) (kv2 : List Nat × Json)
    (ms2 : List (List Nat × Json)) :
    dumpMems lvl ((k, v) :: kv2 :: ms2) =
      padSp (lvl + 1) ++ (34 :: (escStr k ++ [34])) ++ (58 :: 32 :: dumpVal (lvl + 1) v) ++
        (44 :: 10 :: dumpMems lvl (kv2 :: ms2)) := rfl

mutual

/-- The parser fuel needed for a value is within its serialized length
plus one. -/
theorem sizeV_le_dump (v : Json) (lvl : Nat) : sizeV v ≤ (dumpVal lvl v).length + 1 := by
  cases v with
  | jnull =>
    have h : (dumpVal lvl Json.jnull).length = 4 := rfl
    simp [sizeV, h]
  | jbool b =>
    cases b with
    | true =>
      have h : (dumpVal lvl (Json.jbool true)).length = 4 := rfl
      simp [sizeV, h]
    | false =>
      have h : (dumpVal lvl (Json.jbool false)).length = 5 := rfl
      simp [sizeV, h]
  | jnum i =>
    simp only [sizeV]
    omega
  | jstr s =>
    simp only [sizeV]
    omega
  | jarr l =>
    cases l with
    | nil =>
      have h : (dumpVal lvl (Json.jarr [])).length = 2 := rfl
      simp [sizeV, sizeL, h]
    | cons v vs =>
      have h := sizeL_le_dump (v :: vs) lvl
      have hd : dumpVal lvl (Json.jarr (v :: vs)) = 91 :: 10 :: dumpElems lvl (v :: vs) := rfl
      rw [hd]
      simp only [sizeV, List.length_cons]
      omega
  | jobj m =>
    cases m with
    | nil =>
      have h : (dumpVal lvl (Json.jobj [])).length = 2 := rfl
      simp [sizeV, sizeM, h]
    | cons kv ms =>
      have h := sizeM_le_dump (kv :: ms) lvl
      have hd : dumpVal lvl (Json.jobj (kv :: ms)) = 123 :: 10 :: dumpMems lvl (kv :: ms) := rfl
      rw [hd]
      simp only [sizeV, List.length_cons]
      omega

/-- The parser fuel needed for array items is within their serialized
length. -/
theorem sizeL_le_dump (l : List Json) (lvl : Nat) : sizeL l ≤ (dumpElems lvl l).length := by
  cases l with
  | nil => simp [sizeL, dumpElems]
  | cons v vs =>
    have hv := sizeV_le_dump v (lvl + 1)
    cases vs with
    | nil =>
      rw [dumpElems_cons_nil]
      simp only [sizeL, List.length_append, List.length_cons, padSp, List.length_replicate]
      omega
    | cons v2 vs2 =>
      have ht := sizeL_le_dump (v2 :: vs2) lvl
      rw [dumpElems_cons_cons]
      simp only [sizeL, List.length_append, List.length_cons, padSp, List.length_replicate]
        at ht ⊢
      omega

/-- The parser fuel needed for object members is within their serialized
length. -/
theorem sizeM_le_dump (ms : List (List Nat × Json)) (lvl : Nat) :
    sizeM ms ≤ (dumpMems lvl ms).length := by
  cases ms with
  | nil => simp [sizeM, dumpMems]
  | cons kv ms' =>
    obtain ⟨k, v⟩ := kv
    have hv := sizeV_le_dump v (lvl + 1)
    cases ms' with
    | nil =>
      rw [dumpMems_cons_nil]
      simp only [sizeM, List.length_append, List.length_cons, padSp, List.length_replicate]
      omega
    | cons kv2 ms2 =>
      have ht := sizeM_le_dump (kv2 :: ms2) lvl
      rw [dumpMems_cons_cons]
      simp only [sizeM, List.length_append, List.length_cons, padSp, List.length_replicate]
        at ht ⊢
      omega

end

/-- Parsing back the pretty-printed serialization of a well-formed value
recovers the value (`json.loads` of `json.dumps(v, indent=2)`). -/
theorem jsonParse_dumps (v : Json) (hwf : wfV v = true) : jsonParse (jsonDumps v) = some v := by
  have h := rtV v 0 [] ((dumpVal 0 v).length + 1) hwf trivial
    (le_trans (sizeV_le_dump v 0) (by omega))
  rw [List.append_nil] at h
  unfold jsonParse jsonDumps
  rw [h]
  rfl

/-- Hex digits are ASCII. -/
theorem hexDig_ascii (d : Nat) (h : d < 16) : hexDig d < 128 := by
  unfold hexDig
  split <;> omega

/-- Every character of a `\uNNNN` escape payload is ASCII. -/
theorem toHex4_ascii (n : Nat) : ∀ c ∈ toHex4 n, c < 128 := by
  intro c hc
  simp only [toHex4, List.mem_cons, List.not_mem_nil, or_false] at hc
  rcases hc with h | h | h | h <;>
    (subst h; exact hexDig_ascii _ (Nat.mod_lt _ (by omega)))

/-- The escape of any codepoint is pure ASCII. -/
theorem escChar_ascii (c : Nat) : ∀ e ∈ escChar c, e < 128 := by
  intro e he
  unfold escChar at he
  split at he
  · simp at he; omega
  · split at he
    · simp at he; omega
    · split at he
      · simp at he; omega
      · split at he
        · simp at he; omega
        · split at he
          · simp at he; omega
          · split at he
            · simp at he; omega
            · split at he
              · simp at he; omega
              · split at he
                · rename_i hlit
                  simp at he
                  omega
                · split at he
                  · simp only [List.mem_cons] at he
                    rcases he with h | h | h
                    · omega
                    · omega
                    · exact toHex4_ascii _ e h
                  · simp only [List.cons_append, List.mem_cons, List.mem_append] at he
                    rcases he with h | h | h
                    · omega
                    · omega
                    · rcases h with h | h | h | h
                      · exact toHex4_ascii _ e h
                      · omega
                      · omega
                      · exact toHex4_ascii _ e h

/-- The escaped string body is pure ASCII. -/
theorem escStr_ascii (s : List Nat) : ∀ c ∈ escStr s, c < 128 := by
  intro c hc
  simp only [escStr, List.mem_flatten, List.mem_map] at hc
  obtain ⟨l, ⟨ch, _, rfl⟩, hcl⟩ := hc
  exact escChar_ascii ch c hcl

/-- The decimal rendering of an integer is pure ASCII. -/
theorem intDec_ascii (i : Int) : ∀ c ∈ intDec i, c < 128 := by
  intro c hc
  unfold intDec at hc
  have hdig : ∀ m : Nat, ∀ d ∈ natDec m, d < 128 := by
    intro m d hd
    have := natDec_all_digit m d hd
    simp only [isDigit, Bool.and_eq_true, decide_eq_true_eq] at this
    omega
  split at hc
  · simp only [List.mem_cons] at hc
    rcases hc with h | h
    · omega
    · exact hdig _ c h
  · exact hdig _ c hc

mutual

/-- The pretty-printed serialization of any value is pure ASCII, as
`ensure_ascii=True` guarantees. -/
theorem dumpV_ascii (v : Json) (lvl : Nat) : ∀ c ∈ dumpVal lvl v, c < 128 := by
  cases v with
  | jnull =>
    intro c hc
    have h : dumpVal lvl Json.jnull = [110, 117, 108, 108] := rfl
    rw [h] at hc
    simp at hc
    omega
  | jbool b =>
    intro c hc
    cases b with
    | true =>
      have h : dumpVal lvl (Json.jbool true) = [116, 114, 117, 101] := rfl
      rw [h] at hc
      simp at hc
      omega
    | false =>
      have h : dumpVal lvl (Json.jbool false) = [102, 97, 108, 115, 101] := rfl
      rw [h] at hc
      simp at hc
      omega
  | jnum i => exact intDec_ascii i
  | jstr s =>
    intro c hc
    have h : dumpVal lvl (Json.jstr s) = 34 :: (escStr s ++ [34]) := rfl
    rw [h] at hc
    simp only [List.mem_cons, List.mem_append] at hc
    rcases hc with h1 | h1 | h1
    · omega
    · exact escStr_ascii s c h1
    · simp at h1; omega
  | jarr l =>
    cases l with
    | nil =>
      intro c hc
      have h : dumpVal lvl (Json.jarr []) = [91, 93] := rfl
      rw [h] at hc
      simp at hc
      omega
    | cons v vs =>
      intro c hc
      have h : dumpVal lvl (Json.jarr (v :: vs)) = 91 :: 10 :: dumpElems lvl (v :: vs) := rfl
      rw [h] at hc
      simp only [List.mem_cons] at hc
      rcases hc with h1 | h1 | h1
      · omega
      · omega
      · exact dumpL_ascii (v :: vs) lvl c h1
  | jobj m =>
    cases m with
    | nil =>
      intro c hc
      have h : dumpVal lvl (Json.jobj []) = [123, 125] := rfl
      rw [h] at hc
      simp at hc
      omega
    | cons kv ms =>
      intro c hc
      have h : dumpVal lvl (Json.jobj (kv :: ms)) = 123 :: 10 :: dumpMems lvl (kv :: ms) := rfl
      rw [h] at hc
      simp only [List.mem_cons] at hc
      rcases hc with h1 | h1 | h1
      · omega
      · omega
      · exact dumpM_ascii (kv :: ms) lvl c h1

/-- The serialized array items are pure ASCII. -/
theorem dumpL_ascii (l : List Json) (lvl : Nat) : ∀ c ∈ dumpElems lvl l, c < 128 := by
  cases l with
  | nil =>
    intro c hc
    simp [dumpElems] at hc
    omega
  | cons v vs =>
    intro c hc
    have hpad : ∀ c ∈ padSp (lvl + 1), c < 128 := by
      intro c hc
      simp [padSp] at hc
      omega
    cases vs with
    | nil =>
      rw [dumpElems_cons_nil] at hc
      simp only [List.mem_append, List.mem_cons, List.not_mem_nil, or_false] at hc
      rcases hc with (h1 | h1) | h1 | h1 | h1
      · exact hpad c h1
      · exact dumpV_ascii v (lvl + 1) c h1
      · omega
      · simp [padSp] at h1
        omega
      · omega
    | cons v2 vs2 =>
      rw [dumpElems_cons_cons] at hc
      simp only [List.mem_append, List.mem_cons, List.not_mem_nil, or_false] at hc
      rcases hc with (h1 | h1) | h1 | h1 | h1
      · exact hpad c h1
      · exact dumpV_ascii v (lvl + 1) c h1
      · omega
      · omega
      · exact dumpL_ascii (v2 :: vs2) lvl c h1

/-- The serialized object members are pure ASCII. -/
theorem dumpM_ascii (ms : List (List Nat × Json)) (lvl : Nat) :
    ∀ c ∈ dumpMems lvl ms, c < 128 := by
  cases ms with
  | nil =>
    intro c hc
    simp [dumpMems] at hc
    omega
  | cons kv ms' =>
    obtain ⟨k, v⟩ := kv
    intro c hc
    have hpad : ∀ c ∈ padSp (lvl + 1), c < 128 := by
      intro c hc
      simp [padSp] at hc
      omega
    cases ms' with
    | nil =>
      rw [dumpMems_cons_nil] at hc
      simp only [List.mem_append, List.mem_cons, List.not_mem_nil, or_false] at hc
      rcases hc with ((h1 | h1 | h1 | h1) | h1 | h1 | h1) | h1 | h1 | h1
      · exact hpad c h1
      · omega
      · exact escStr_ascii k c h1
      · omega
      · omega
      · omega
      · exact dumpV_ascii v (lvl + 1) c h1
      · omega
      · simp [padSp] at h1
        omega
      · omega
    | cons kv2 ms2 =>
      rw [dumpMems_cons_cons] at hc
      simp only [List.mem_append, List.mem_cons, List.not_mem_nil, or_false] at hc
      rcases hc with ((h1 | h1 | h1 | h1) | h1 | h1 | h1) | h1 | h1 | h1
      · exact hpad c h1
      · omega
      · exact escStr_ascii k c h1
      · omega
      · omega
      · omega
      · exact dumpV_ascii v (lvl + 1) c h1
      · omega
      · omega
      · exact dumpM_ascii (kv2 :: ms2) lvl c h1

end

/-! ### Claim theorems -/

/-- C4: when the specification's `x` is not an existing column, the
case-insensitive keyword heuristics recover an existing column whenever
the canonical columns are present - substring `team` yields `team1`,
else `winner` yields `winner`, else `toss` yields `toss_winner` - and in
particular `Team` against the columns `team1, team2, toss_winner,
winner` auto-corrects to `team1`; with no keyword the request fails with
the invalid column name and the list of valid columns. -/
theorem claim_C4_column_autocorrect (cols : List (List Nat)) (x : List Nat)
    (hx : x ∉ cols)
    (h1 : strCodes "team1" ∈ cols) (h2 : strCodes "winner" ∈ cols)
    (h3 : strCodes "toss_winner" ∈ cols) :
    (containsSub (lowerStr x) (strCodes "team") = true →
       autoCorrectX cols x = .ok (strCodes "team1") ∧ strCodes "team1" ∈ cols) ∧
    (containsSub (lowerStr x) (strCodes "team") = false →
     containsSub (lowerStr x) (strCodes "winner") = true →
       autoCorrectX cols x = .ok (strCodes "winner") ∧ strCodes "winner" ∈ cols) ∧
    (containsSub (lowerStr x) (strCodes "team") = false →
     containsSub (lowerStr x) (strCodes "winner") = false →
     containsSub (lowerStr x) (strCodes "toss") = true →
       autoCorrectX cols x = .ok (strCodes "toss_winner") ∧ strCodes "toss_winner" ∈ cols) ∧
    (containsSub (lowerStr x) (strCodes "team") = false →
     containsSub (lowerStr x) (strCodes "winner") = false →
     containsSub (lowerStr x) (strCodes "toss") = false →
       autoCorrectX cols x = .error (.columnNotFound x cols)) ∧
    autoCorrectX [strCodes "team1", strCodes "team2", strCodes "toss_winner", strCodes "winner"]
      (strCodes "Team") = .ok (strCodes "team1") := by
  refine ⟨?_, ?_, ?_, ?_, rfl⟩
  · intro a
    exact ⟨by simp [autoCorrectX, hx, a], h1⟩
  · intro a b
    exact ⟨by simp [autoCorrectX, hx, a, b], h2⟩
  · intro a b c
    exact ⟨by simp [autoCorrectX, hx, a, b, c], h3⟩
  · intro a b c
    simp [autoCorrectX, hx, a, b, c]

/-- C4 witness: the scenario input, `x = "Team"` against the columns
`team1, team2, toss_winner, winner`, auto-corrects to the existing
column `team1`. -/
theorem claim_C4_column_autocorrect_witness :
    autoCorrectX [strCodes "team1", strCodes "team2", strCodes "toss_winner", strCodes "winner"]
      (strCodes "Team") = .ok (strCodes "team1") ∧
    strCodes "team1" ∈
      [strCodes "team1", strCodes "team2", strCodes "toss_winner", strCodes "winner"] :=
  (claim_C4_column_autocorrect
      [strCodes "team1", strCodes "team2", strCodes "toss_winner", strCodes "winner"]
      (strCodes "Team") (by decide) (by decide) (by decide) (by decide)).1 (by decide)

/-- C10: the keyword heuristics are tried in the fixed order `team`,
`winner`, `toss`, so an unknown `x` whose lowercase form contains more
than one keyword is decided by the earlier one: with `team` present it
maps to `team1` whatever else matches, and with both `winner` and `toss`
but not `team` it maps to `winner`; in particular `toss winning team`
maps to `team1`. -/
theorem claim_C10_keyword_priority (cols : List (List Nat)) (x : List Nat) (hx : x ∉ cols) :
    (containsSub (lowerStr x) (strCodes "team") = true →
     (containsSub (lowerStr x) (strCodes "winner") = true ∨
      containsSub (lowerStr x) (strCodes "toss") = true) →
       autoCorrectX cols x = .ok (strCodes "team1")) ∧
    (containsSub (lowerStr x) (strCodes "team") = false →
     containsSub (lowerStr x) (strCodes "winner") = true →
     containsSub (lowerStr x) (strCodes "toss") = true →
       autoCorrectX cols x = .ok (strCodes "winner")) ∧
    autoCorrectX [strCodes "team1", strCodes "team2", strCodes "toss_winner", strCodes "winner"]
      (strCodes "toss winning team") = .ok (strCodes "team1") := by
  refine ⟨?_, ?_, rfl⟩
  · intro a _
    simp [autoCorrectX, hx, a]
  · intro a b _
    simp [autoCorrectX, hx, a, b]

/-- C10 witness: `toss team`, which contains both the `team` and the
`toss` keyword, is not one of the canonical columns and maps to `team1`,
decided by the earlier keyword. -/
theorem claim_C10_keyword_priority_witness :
    autoCorrectX [strCodes "team1", strCodes "team2", strCodes "toss_winner", strCodes "winner"]
      (strCodes "toss team") = .ok (strCodes "team1") :=
  (claim_C10_keyword_priority
      [strCodes "team1", strCodes "team2", strCodes "toss_winner", strCodes "winner"]
      (strCodes "toss team") (by decide)).1 (by decide) (Or.inr (by decide))

/-- C8: a parsed specification object missing any of the keys `x`, `y`
or `chart_type` is rejected before any aggregation: the pipeline stops
with the missing-key validation error (or, for the empty object, with
the invalid-model-output error), never with a prepared series. -/
theorem claim_C8_missing_keys (df : DFrame) (ms : List (List Nat × Json))
    (h : objGet ms (strCodes "x") = none ∨ objGet ms (strCodes "y") = none ∨
         objGet ms (strCodes "chart_type") = none) :
    processSpec df (some (.jobj ms)) = .error .missingKeys ∨
    (ms = [] ∧ processSpec df (some (.jobj ms)) = .error .modelOutputInvalid) := by
  by_cases hms : ms = []
  · subst hms
    right
    exact ⟨rfl, rfl⟩
  · left
    have hmse : ms.isEmpty = false := by simpa [List.isEmpty_iff] using hms
    have hmst : jsonTruthy (.jobj ms) = true := by simp [jsonTruthy, hmse]
    rcases h with h | h | h <;> simp [processSpec, hmst, truthyOpt, h]

/-- C8 witness: a specification carrying only `x` and `chart_type` (no
`y`) is rejected with the missing-key error. -/
theorem claim_C8_missing_keys_witness :
    processSpec []
        (some (.jobj [(strCodes "x", Json.jstr (strCodes "a")),
                      (strCodes "chart_type", Json.jstr (strCodes "bar"))])) =
      .error .missingKeys ∨
    ([(strCodes "x", Json.jstr (strCodes "a")),
      (strCodes "chart_type", Json.jstr (strCodes "bar"))] =
        ([] : List (List Nat × Json)) ∧
     processSpec []
        (some (.jobj [(strCodes "x", Json.jstr (strCodes "a")),
                      (strCodes "chart_type", Json.jstr (strCodes "bar"))])) =
      .error .modelOutputInvalid) :=
  claim_C8_missing_keys []
    [(strCodes "x", Json.jstr (strCodes "a")), (strCodes "chart_type", Json.jstr (strCodes "bar"))]
    (Or.inr (Or.inl rfl))

/-- C9: `clean_text` reduces every string to pure ASCII without ever
failing - whatever the NFKD normalization returns, the encode-ignore
step keeps only codepoints below 128 - and, since NFKD is the identity
on pure-ASCII text, an already-ASCII string passes through unchanged. -/
theorem claim_C9_clean_text (normNFKD : List Nat → List Nat) (s : List Nat) :
    (∀ c ∈ clean_text normNFKD s, c < 128) ∧
    ((∀ t, (∀ c ∈ t, c < 128) → normNFKD t = t) →
     (∀ c ∈ s, c < 128) → clean_text normNFKD s = s) := by
  constructor
  · intro c hc
    have := List.of_mem_filter hc
    simpa using this
  · intro hnorm hs
    unfold clean_text asciiIgnore
    rw [hnorm s hs]
    exact List.filter_eq_self.mpr (fun c hc => by simpa using hs c hc)

/-- C9 witness: an ASCII string is returned unchanged through a
normalization that fixes ASCII text. -/
theorem claim_C9_clean_text_witness :
    clean_text (fun t => t) [104, 105] = [104, 105] :=
  (claim_C9_clean_text (fun t => t) [104, 105]).2 (fun _ _ => rfl) (by decide)

/-- C2 counterexample: the input `5` contains no brace pair, yet
`parse_model_json` returns the parsed number 5 - the first fallback,
`json.loads` of the stripped text, succeeds - not the failure signal
claimed for all brace-free inputs. -/
theorem claim_C2_counterexample :
    parse_model_json (strCodes "5") = some (.jnum 5) ∧
    findCharIdx 123 (strCodes "5") = none ∧
    rfindCharIdx 125 (strCodes "5") = none :=
  ⟨rfl, rfl, rfl⟩

/-- C2 (amended): `parse_model_json` is total - it returns a parsed
value or `none`, never an exception - and on an input with no brace pair
it returns `none` provided the direct parse of the stripped text and the
fenced-block parse also fail (a brace-free input can still be valid JSON,
for example a bare numeral). -/
theorem claim_C2_no_brace_failure (raw : List Nat)
    (h1 : jsonParse (pyStrip raw) = none)
    (h2 : (fencedExtract raw).bind jsonParse = none)
    (hb : braceSlice raw = none) :
    parse_model_json raw = none := by
  simp [parse_model_json, h1, h2, hb]

/-- C2 witness: a plain word parses with no strategy and yields the
failure signal. -/
theorem claim_C2_no_brace_failure_witness :
    parse_model_json (strCodes "hello") = none :=
  claim_C2_no_brace_failure (strCodes "hello") rfl rfl rfl

/-- A nonempty string value is truthy. -/
theorem jsonTruthy_str_of_ne {s : List Nat} (h : s ≠ []) : jsonTruthy (.jstr s) = true := by
  rcases s with _ | _
  · exact absurd rfl h
  · rfl

/-- A positive integer literal is truthy. -/
theorem jsonTruthy_natCast_pos {N : Nat} (h : 0 < N) : jsonTruthy (.jnum (N : Int)) = true := by
  simp [jsonTruthy]
  omega

/-- Head truncation by a positive natural limit is `take`. -/
theorem pyHead_natCast (N : Nat) (l : List (Cell × Int)) : pyHead (N : Int) l = l.take N := by
  simp [pyHead, Int.natCast_nonneg, Int.toNat_natCast]

/-- C5: a count aggregation (`y = "count"`) with a positive limit `N`
returns the frequency tally truncated to its first `N` rows: at most `N`
rows, sorted by descending count. -/
theorem claim_C5_count_limit (df : DFrame) (ms : List (List Nat × Json))
    (xs : List Nat) (xcol : List Cell) (N : Nat)
    (hx : objGet ms (strCodes "x") = some (.jstr xs)) (hxs : xs ≠ [])
    (hy : objGet ms (strCodes "y") = some (.jstr (strCodes "count")))
    (hct : truthyOpt (objGet ms (strCodes "chart_type")) = true)
    (hxm : xs ∈ colNames df) (hcol : getCol df xs = some xcol)
    (hlim : objGet ms (strCodes "limit") = some (.jnum (N : Int)))
    (hN : 0 < N) :
    processSpec df (some (.jobj ms)) = .ok ⟨(valueCounts xcol).take N, strCodes "count"⟩ ∧
    ((valueCounts xcol).take N).length ≤ N ∧
    List.Sorted descVal ((valueCounts xcol).take N) := by
  refine ⟨?_, List.length_take_le _ _, sorted_take (sorted_valueCounts xcol)⟩
  rw [processSpec_eq df ms xs (.jstr (strCodes "count")) hx hxs hy (by decide) hct hxm, hlim]
  have hres : resolveY (colNames df) (.jstr (strCodes "count")) = strCodes "count" := by
    simp [resolveY]
  rw [hres]
  simp [prepareData, hcol, applyLimit, jsonTruthy_natCast_pos hN, pyHead_natCast]

/-- C5 witness: the column `a` with values `p, q, p` under
`y = "count"`, `limit = 2` yields the two-row descending tally. -/
theorem claim_C5_count_limit_witness :
    processSpec [(strCodes "a",
        [Cell.str (strCodes "p"), Cell.str (strCodes "q"), Cell.str (strCodes "p")])]
      (some (.jobj [(strCodes "x", Json.jstr (strCodes "a")),
                    (strCodes "y", Json.jstr (strCodes "count")),
                    (strCodes "chart_type", Json.jstr (strCodes "bar")),
                    (strCodes "limit", Json.jnum 2)])) =
      .ok ⟨(valueCounts
              [Cell.str (strCodes "p"), Cell.str (strCodes "q"), Cell.str (strCodes "p")]).take 2,
           strCodes "count"⟩ ∧
    ((valueCounts
        [Cell.str (strCodes "p"), Cell.str (strCodes "q"), Cell.str (strCodes "p")]).take 2).length
      ≤ 2 ∧
    List.Sorted descVal
      ((valueCounts
          [Cell.str (strCodes "p"), Cell.str (strCodes "q"), Cell.str (strCodes "p")]).take 2) :=
  claim_C5_count_limit _ _ (strCodes "a") _ 2 rfl (by decide) rfl rfl (by decide) rfl rfl
    (by decide)

/-- C6: a sum aggregation on an existing numeric column `ys` with a
positive limit `N` returns the per-category sums sorted descending and
truncated to `N` rows: at most `N` rows, sorted by descending summed
value, and every row carries the true sum of `ys` over the rows of its
category. -/
theorem claim_C6_sum_limit (df : DFrame) (ms : List (List Nat × Json))
    (xs ys : List Nat) (xcol ycol : List Cell) (N : Nat)
    (hx : objGet ms (strCodes "x") = some (.jstr xs)) (hxs : xs ≠ [])
    (hy : objGet ms (strCodes "y") = some (.jstr ys))
    (hysc : ys ≠ strCodes "count") (hyse : ys ≠ [])
    (hct : truthyOpt (objGet ms (strCodes "chart_type")) = true)
    (hxm : xs ∈ colNames df) (hcol : getCol df xs = some xcol)
    (hym : ys ∈ colNames df) (hycol : getCol df ys = some ycol)
    (hnum : isNumericCol ycol = true)
    (hlim : objGet ms (strCodes "limit") = some (.jnum (N : Int)))
    (hN : 0 < N) :
    processSpec df (some (.jobj ms)) =
      .ok ⟨((groupSum xcol ycol).insertionSort descVal).take N, ys⟩ ∧
    (((groupSum xcol ycol).insertionSort descVal).take N).length ≤ N ∧
    List.Sorted descVal (((groupSum xcol ycol).insertionSort descVal).take N) ∧
    ∀ p ∈ ((groupSum xcol ycol).insertionSort descVal).take N,
      p.2 = sumForKey (xcol.zip ycol) p.1 := by
  refine ⟨?_, List.length_take_le _ _,
    sorted_take (List.sorted_insertionSort descVal (groupSum xcol ycol)), ?_⟩
  · rw [processSpec_eq df ms xs (.jstr ys) hx hxs hy (jsonTruthy_str_of_ne hyse) hct hxm, hlim]
    have hres : resolveY (colNames df) (.jstr ys) = ys := by
      simp [resolveY, hym]
    rw [hres]
    simp [prepareData, hcol, hysc, hycol, hnum, jsonTruthy_natCast_pos hN, pyHead_natCast]
  · intro p hp
    have hp1 : p ∈ (groupSum xcol ycol).insertionSort descVal := List.take_subset _ _ hp
    have hp2 : p ∈ groupSum xcol ycol :=
      (List.perm_insertionSort descVal (groupSum xcol ycol)).mem_iff.mp hp1
    exact groupSum_value hp2

/-- C6 witness: summing the numeric column `c` over `a` values `p, q, p`
with `limit = 1` keeps the single largest per-category sum. -/
theorem claim_C6_sum_limit_witness :
    processSpec
        [(strCodes "a", [Cell.str (strCodes "p"), Cell.str (strCodes "q"), Cell.str (strCodes "p")]),
         (strCodes "c", [Cell.num 1, Cell.num 2, Cell.num 3])]
        (some (.jobj [(strCodes "x", Json.jstr (strCodes "a")),
                      (strCodes "y", Json.jstr (strCodes "c")),
                      (strCodes "chart_type", Json.jstr (strCodes "bar")),
                      (strCodes "limit", Json.jnum 1)])) =
      .ok ⟨((groupSum
               [Cell.str (strCodes "p"), Cell.str (strCodes "q"), Cell.str (strCodes "p")]
               [Cell.num 1, Cell.num 2, Cell.num 3]).insertionSort descVal).take 1,
           strCodes "c"⟩ ∧
    (((groupSum [Cell.str (strCodes "p"), Cell.str (strCodes "q"), Cell.str (strCodes "p")]
         [Cell.num 1, Cell.num 2, Cell.num 3]).insertionSort descVal).take 1).length ≤ 1 ∧
    List.Sorted descVal
      (((groupSum [Cell.str (strCodes "p"), Cell.str (strCodes "q"), Cell.str (strCodes "p")]
           [Cell.num 1, Cell.num 2, Cell.num 3]).insertionSort descVal).take 1) ∧
    ∀ p ∈ ((groupSum [Cell.str (strCodes "p"), Cell.str (strCodes "q"), Cell.str (strCodes "p")]
             [Cell.num 1, Cell.num 2, Cell.num 3]).insertionSort descVal).take 1,
      p.2 = sumForKey
        ([Cell.str (strCodes "p"), Cell.str (strCodes "q"), Cell.str (strCodes "p")].zip
          [Cell.num 1, Cell.num 2, Cell.num 3]) p.1 :=
  claim_C6_sum_limit _ _ (strCodes "a") (strCodes "c") _ _ 1 rfl (by decide) rfl (by decide)
    (by decide) rfl (by decide) rfl (by decide) rfl rfl rfl (by decide)

/-- C3 counterexample: `y = "b"` names an existing non-numeric column
and `limit = 1` is set, yet the fallback count aggregation returns all
three rows - the limit is not applied in this branch, against the
claim's "first limit rows kept when limit is set". -/
theorem claim_C3_counterexample :
    processSpec
        [(strCodes "a",
          [Cell.str (strCodes "p"), Cell.str (strCodes "q"), Cell.str (strCodes "r")]),
         (strCodes "b",
          [Cell.str (strCodes "u"), Cell.str (strCodes "u"), Cell.str (strCodes "u")])]
        (some (.jobj [(strCodes "x", Json.jstr (strCodes "a")),
                      (strCodes "y", Json.jstr (strCodes "b")),
                      (strCodes "chart_type", Json.jstr (strCodes "bar")),
                      (strCodes "limit", Json.jnum 1)])) =
      .ok ⟨[(Cell.str (strCodes "p"), 1), (Cell.str (strCodes "q"), 1),
            (Cell.str (strCodes "r"), 1)],
           strCodes "count"⟩ ∧
    Except.map (fun o => o.series.length)
      (processSpec
        [(strCodes "a",
          [Cell.str (strCodes "p"), Cell.str (strCodes "q"), Cell.str (strCodes "r")]),
         (strCodes "b",
          [Cell.str (strCodes "u"), Cell.str (strCodes "u"), Cell.str (strCodes "u")])]
        (some (.jobj [(strCodes "x", Json.jstr (strCodes "a")),
                      (strCodes "y", Json.jstr (strCodes "b")),
                      (strCodes "chart_type", Json.jstr (strCodes "bar")),
                      (strCodes "limit", Json.jnum 1)]))) = .ok 3 :=
  ⟨rfl, rfl⟩

/-- C3 (amended): an invalid `y` falls back silently to the count
aggregation, but the limit is applied only on the path where `y` is
replaced by the literal `"count"` (a `y` naming no column); when `y`
names an existing non-numeric column the fallback count aggregation
ignores the limit and returns every distinct `x` value. In both cases
the rows are sorted by descending count and carry the occurrence counts. -/
theorem claim_C3_noncount_fallback (df : DFrame) (ms : List (List Nat × Json))
    (xs : List Nat) (xcol : List Cell)
    (hx : objGet ms (strCodes "x") = some (.jstr xs)) (hxs : xs ≠ [])
    (hct : truthyOpt (objGet ms (strCodes "chart_type")) = true)
    (hxm : xs ∈ colNames df) (hcol : getCol df xs = some xcol) :
    (∀ ys ycol, objGet ms (strCodes "y") = some (.jstr ys) → ys ≠ strCodes "count" →
       ys ≠ [] → ys ∈ colNames df → getCol df ys = some ycol → isNumericCol ycol = false →
       processSpec df (some (.jobj ms)) = .ok ⟨valueCounts xcol, strCodes "count"⟩) ∧
    (∀ ys, objGet ms (strCodes "y") = some (.jstr ys) → ys ≠ strCodes "count" → ys ≠ [] →
       ys ∉ colNames df →
       ∀ N : Nat, objGet ms (strCodes "limit") = some (.jnum (N : Int)) → 0 < N →
       processSpec df (some (.jobj ms)) = .ok ⟨(valueCounts xcol).take N, strCodes "count"⟩) ∧
    List.Sorted descVal (valueCounts xcol) ∧
    (∀ p ∈ valueCounts xcol, p.2 = (xcol.count p.1 : Int)) := by
  refine ⟨?_, ?_, sorted_valueCounts xcol, fun p hp => valueCounts_count hp⟩
  · intro ys ycol hy hysc hyse hym hycol hnum
    rw [processSpec_eq df ms xs (.jstr ys) hx hxs hy (jsonTruthy_str_of_ne hyse) hct hxm]
    have hres : resolveY (colNames df) (.jstr ys) = ys := by
      simp [resolveY, hym]
    rw [hres]
    simp [prepareData, hcol, hysc, hycol, hnum]
  · intro ys hy hysc hyse hym N hlim hN
    rw [processSpec_eq df ms xs (.jstr ys) hx hxs hy (jsonTruthy_str_of_ne hyse) hct hxm, hlim]
    have hres : resolveY (colNames df) (.jstr ys) = strCodes "count" := by
      simp [resolveY, hysc, hym]
    rw [hres]
    simp [prepareData, hcol, applyLimit, jsonTruthy_natCast_pos hN, pyHead_natCast]

/-- C3 witness: with `y = "b"` an existing string column, the fallback
count aggregation runs and returns the full tally. -/
theorem claim_C3_noncount_fallback_witness :
    processSpec
        [(strCodes "a",
          [Cell.str (strCodes "p"), Cell.str (strCodes "q"), Cell.str (strCodes "r")]),
         (strCodes "b",
          [Cell.str (strCodes "u"), Cell.str (strCodes "u"), Cell.str (strCodes "u")])]
        (some (.jobj [(strCodes "x", Json.jstr (strCodes "a")),
                      (strCodes "y", Json.jstr (strCodes "b")),
                      (strCodes "chart_type", Json.jstr (strCodes "bar")),
                      (strCodes "limit", Json.jnum 1)])) =
      .ok ⟨valueCounts
             [Cell.str (strCodes "p"), Cell.str (strCodes "q"), Cell.str (strCodes "r")],
           strCodes "count"⟩ :=
  (claim_C3_noncount_fallback
      [(strCodes "a",
        [Cell.str (strCodes "p"), Cell.str (strCodes "q"), Cell.str (strCodes "r")]),
       (strCodes "b",
        [Cell.str (strCodes "u"), Cell.str (strCodes "u"), Cell.str (strCodes "u")])]
      [(strCodes "x", Json.jstr (strCodes "a")),
       (strCodes "y", Json.jstr (strCodes "b")),
       (strCodes "chart_type", Json.jstr (strCodes "bar")),
       (strCodes "limit", Json.jnum 1)]
      (strCodes "a")
      [Cell.str (strCodes "p"), Cell.str (strCodes "q"), Cell.str (strCodes "r")]
      rfl (by decide) rfl (by decide) rfl).1
    (strCodes "b") [Cell.str (strCodes "u"), Cell.str (strCodes "u"), Cell.str (strCodes "u")]
    rfl (by decide) (by decide) (by decide) rfl rfl

/-- C1: whenever the substring from the first brace to the last brace of
the raw reply parses as a JSON object, `parse_model_json` succeeds - it
returns the result of the ordered fallback, which is the direct parse of
the stripped text when that succeeds, else the fenced-block parse when
that succeeds, else exactly the parsed brace substring. -/
theorem claim_C1_brace_parse (raw sub : List Nat) (ms : List (List Nat × Json))
    (hs : braceSlice raw = some sub)
    (hp : jsonParse sub = some (.jobj ms)) :
    (∃ v, parse_model_json raw = some v) ∧
    (jsonParse (pyStrip raw) = none → (fencedExtract raw).bind jsonParse = none →
      parse_model_json raw = some (.jobj ms)) := by
  constructor
  · rcases h1 : jsonParse (pyStrip raw) with _ | v1
    · rcases h2 : (fencedExtract raw).bind jsonParse with _ | v2
      · exact ⟨.jobj ms, by simp [parse_model_json, h1, h2, hs, hp]⟩
      · exact ⟨v2, by simp [parse_model_json, h1, h2]⟩
    · exact ⟨v1, by simp [parse_model_json, h1]⟩
  · intro h1 h2
    simp [parse_model_json, h1, h2, hs, hp]

/-- C7: round trip - the specification JSON text the report embeds,
`clean_text` applied to the pretty-printed `json.dumps(chart_info,
indent=2)`, parses back to the original specification value. The
serialization is pure ASCII (`ensure_ascii`), so the NFKD-and-strip
cleaning leaves it untouched, and parsing the pretty-printed form
recovers any well-formed value (valid Unicode strings, distinct object
keys). -/
theorem claim_C7_roundtrip (normNFKD : List Nat → List Nat) (v : Json)
    (hnorm : ∀ t, (∀ c ∈ t, c < 128) → normNFKD t = t)
    (hwf : wfV v = true) :
    jsonParse (clean_text normNFKD (jsonDumps v)) = some v := by
  have hascii : ∀ c ∈ jsonDumps v, c < 128 := dumpV_ascii v 0
  have hct : clean_text normNFKD (jsonDumps v) = jsonDumps v := by
    unfold clean_text asciiIgnore
    rw [hnorm _ hascii]
    exact List.filter_eq_self.mpr (fun c hc => by simpa using hascii c hc)
  rw [hct]
  exact jsonParse_dumps v hwf

/-- C7 witness: the scenario chart specification survives the
serialize-clean-parse round trip. -/
theorem claim_C7_roundtrip_witness :
    jsonParse (clean_text (fun t => t)
        (jsonDumps (Json.jobj [(strCodes "x", Json.jstr (strCodes "toss_winner")),
                               (strCodes "y", Json.jstr (strCodes "count")),
                               (strCodes "chart_type", Json.jstr (strCodes "pie")),
                               (strCodes "limit", Json.jnum 5)]))) =
      some (Json.jobj [(strCodes "x", Json.jstr (strCodes "toss_winner")),
                       (strCodes "y", Json.jstr (strCodes "count")),
                       (strCodes "chart_type", Json.jstr (strCodes "pie")),
                       (strCodes "limit", Json.jnum 5)]) :=
  claim_C7_roundtrip (fun t => t)
    (Json.jobj [(strCodes "x", Json.jstr (strCodes "toss_winner")),
                (strCodes "y", Json.jstr (strCodes "count")),
                (strCodes "chart_type", Json.jstr (strCodes "pie")),
                (strCodes "limit", Json.jnum 5)])
    (fun _ _ => rfl) (by decide)

/-- C1 witness: a reply with prose around the braced object parses to
that object through the brace-substring fallback. -/
theorem claim_C1_brace_parse_witness :
    parse_model_json (strCodes "reply \x7b\"x\": \"a\"\x7d end") =
      some (.jobj [(strCodes "x", Json.jstr (strCodes "a"))]) :=
  (claim_C1_brace_parse (strCodes "reply \x7b\"x\": \"a\"\x7d end")
    (strCodes "\x7b\"x\": \"a\"\x7d")
    [(strCodes "x", Json.jstr (strCodes "a"))] rfl rfl).2 rfl rfl

end ODI
